import Mathlib

/-!
Verification development for the NoLang bytecode system (instruction codec,
static verifier, stack VM).  The definitions below are a shallow embedding of
the Rust sources:

* `crates/common/src/{opcode,type_tag,instruction,program,value}.rs`
* `crates/verifier/src/{limits,structural,exhaustion,hashing,types,contracts,stack,reachability,lib}.rs`
* `crates/vm/src/{machine,execute}.rs`

Machine integers (`u8`, `u16`, `u64`, `i64`, `usize`) are modelled as `Nat` /
`Int`; wrapping arithmetic is written with explicit `% 2 ^ 64`.  Rust `Vec`
stacks (push/pop at the end, de Bruijn indexing `v[len - 1 - i]`) are modelled
as Lean `List`s with the TOP of the stack at the HEAD of the list, so that de
Bruijn index `i` is plain list index `i`.  The external `blake3` crate is not
part of this repository; the hashing pass is therefore parameterised by the
hash function (a `List Nat → List Nat` on byte lists).
-/

namespace NoLang

/-- Decode errors, from `crates/common/src/error.rs`. -/
inductive DecodeError where
  | IllegalOpcode : DecodeError
  | ReservedOpcode : Nat → DecodeError
  | InvalidOpcode : Nat → DecodeError
  | ReservedTypeTag : Nat → DecodeError
  | InvalidTypeTag : Nat → DecodeError
  | InvalidLength : Nat → DecodeError
deriving DecidableEq, Repr

/-- The closed set of 45 opcodes, from `crates/common/src/opcode.rs`. -/
inductive Opcode where
  | Bind | Ref | Drop
  | Const | ConstExt
  | Add | Sub | Mul | Div | Mod | Neg
  | Eq | Neq | Lt | Gt | Lte | Gte
  | And | Or | Not | Xor | Shl | Shr
  | Match | Case | Exhaust
  | Func | Pre | Post | Ret | Call | Recurse | EndFunc | Param
  | VariantNew | TupleNew | Project | ArrayNew | ArrayGet | ArrayLen
  | Hash | Assert | Typeof
  | Halt | Nop
deriving DecidableEq, Repr

/-- The `#[repr(u8)]` discriminant of each opcode (`Opcode as u8`). -/
def Opcode.toByte : Opcode → Nat
  | .Bind => 0x01 | .Ref => 0x02 | .Drop => 0x03
  | .Const => 0x04 | .ConstExt => 0x05
  | .Add => 0x10 | .Sub => 0x11 | .Mul => 0x12 | .Div => 0x13 | .Mod => 0x14
  | .Neg => 0x15
  | .Eq => 0x20 | .Neq => 0x21 | .Lt => 0x22 | .Gt => 0x23 | .Lte => 0x24
  | .Gte => 0x25
  | .And => 0x30 | .Or => 0x31 | .Not => 0x32 | .Xor => 0x33 | .Shl => 0x34
  | .Shr => 0x35
  | .Match => 0x40 | .Case => 0x41 | .Exhaust => 0x42
  | .Func => 0x50 | .Pre => 0x51 | .Post => 0x52 | .Ret => 0x53 | .Call => 0x54
  | .Recurse => 0x55 | .EndFunc => 0x56 | .Param => 0x57
  | .VariantNew => 0x60 | .TupleNew => 0x61 | .Project => 0x62
  | .ArrayNew => 0x63 | .ArrayGet => 0x64 | .ArrayLen => 0x65
  | .Hash => 0x70 | .Assert => 0x71 | .Typeof => 0x72
  | .Halt => 0xFE | .Nop => 0xFF

/-- `impl TryFrom<u8> for Opcode` (`opcode.rs`): `0x00` is permanently
illegal, gap bytes are reserved, everything else maps to its variant. -/
def Opcode.tryFrom (value : Nat) : Except DecodeError Opcode :=
  match value with
  | 0x00 => .error .IllegalOpcode
  | 0x01 => .ok .Bind
  | 0x02 => .ok .Ref
  | 0x03 => .ok .Drop
  | 0x04 => .ok .Const
  | 0x05 => .ok .ConstExt
  | 0x10 => .ok .Add
  | 0x11 => .ok .Sub
  | 0x12 => .ok .Mul
  | 0x13 => .ok .Div
  | 0x14 => .ok .Mod
  | 0x15 => .ok .Neg
  | 0x20 => .ok .Eq
  | 0x21 => .ok .Neq
  | 0x22 => .ok .Lt
  | 0x23 => .ok .Gt
  | 0x24 => .ok .Lte
  | 0x25 => .ok .Gte
  | 0x30 => .ok .And
  | 0x31 => .ok .Or
  | 0x32 => .ok .Not
  | 0x33 => .ok .Xor
  | 0x34 => .ok .Shl
  | 0x35 => .ok .Shr
  | 0x40 => .ok .Match
  | 0x41 => .ok .Case
  | 0x42 => .ok .Exhaust
  | 0x50 => .ok .Func
  | 0x51 => .ok .Pre
  | 0x52 => .ok .Post
  | 0x53 => .ok .Ret
  | 0x54 => .ok .Call
  | 0x55 => .ok .Recurse
  | 0x56 => .ok .EndFunc
  | 0x57 => .ok .Param
  | 0x60 => .ok .VariantNew
  | 0x61 => .ok .TupleNew
  | 0x62 => .ok .Project
  | 0x63 => .ok .ArrayNew
  | 0x64 => .ok .ArrayGet
  | 0x65 => .ok .ArrayLen
  | 0x70 => .ok .Hash
  | 0x71 => .ok .Assert
  | 0x72 => .ok .Typeof
  | 0xFE => .ok .Halt
  | 0xFF => .ok .Nop
  | other => .error (.ReservedOpcode other)

/-- The closed set of 13 type tags, from `crates/common/src/type_tag.rs`. -/
inductive TypeTag where
  | None | I64 | U64 | F64 | Bool | Char
  | Variant | Tuple | FuncType | Array | Maybe | Result | Unit
deriving DecidableEq, Repr

/-- The `#[repr(u8)]` discriminant of each type tag. -/
def TypeTag.toByte : TypeTag → Nat
  | .None => 0x00 | .I64 => 0x01 | .U64 => 0x02 | .F64 => 0x03
  | .Bool => 0x04 | .Char => 0x05 | .Variant => 0x06 | .Tuple => 0x07
  | .FuncType => 0x08 | .Array => 0x09 | .Maybe => 0x0A | .Result => 0x0B
  | .Unit => 0x0C

/-- `impl TryFrom<u8> for TypeTag` (`type_tag.rs`). -/
def TypeTag.tryFrom (value : Nat) : Except DecodeError TypeTag :=
  match value with
  | 0x00 => .ok .None
  | 0x01 => .ok .I64
  | 0x02 => .ok .U64
  | 0x03 => .ok .F64
  | 0x04 => .ok .Bool
  | 0x05 => .ok .Char
  | 0x06 => .ok .Variant
  | 0x07 => .ok .Tuple
  | 0x08 => .ok .FuncType
  | 0x09 => .ok .Array
  | 0x0A => .ok .Maybe
  | 0x0B => .ok .Result
  | 0x0C => .ok .Unit
  | other => .error (.ReservedTypeTag other)

/-- `TypeTag::is_numeric` (`type_tag.rs`); named outside the `TypeTag`
namespace so that `Bool` keeps its usual meaning. -/
def isNumericTag : TypeTag → Bool
  | .I64 | .U64 | .F64 => true
  | _ => false

/-- A single 64-bit instruction, from `crates/common/src/instruction.rs`.
The `u16` argument fields are modelled as `Nat` (in well-formed instructions
each is `< 2 ^ 16`). -/
structure Instruction where
  opcode : Opcode
  typeTag : TypeTag
  arg1 : Nat
  arg2 : Nat
  arg3 : Nat
deriving DecidableEq, Repr

/-- `Instruction::new`. -/
def Instruction.new (opcode : Opcode) (typeTag : TypeTag)
    (arg1 arg2 arg3 : Nat) : Instruction :=
  { opcode, typeTag, arg1, arg2, arg3 }

/-- The `u16` fields fit in 16 bits (guaranteed by the Rust types). -/
def Instruction.wf (i : Instruction) : Prop :=
  i.arg1 < 65536 ∧ i.arg2 < 65536 ∧ i.arg3 < 65536

instance (i : Instruction) : Decidable i.wf := by
  unfold Instruction.wf; infer_instance

/-- `Instruction::encode`: 8 bytes, little-endian args
(`u16::to_le_bytes a = [a % 256, a / 256]`). -/
def Instruction.encode (i : Instruction) : List Nat :=
  [i.opcode.toByte, i.typeTag.toByte,
   i.arg1 % 256, i.arg1 / 256,
   i.arg2 % 256, i.arg2 / 256,
   i.arg3 % 256, i.arg3 / 256]

/-- `Instruction::decode`: the Rust source takes a fixed `[u8; 8]`, so the
non-8-byte case below is unreachable from `Program::decode`
(`u16::from_le_bytes [lo, hi] = lo + 256 * hi`). -/
def Instruction.decode (bytes : List Nat) : Except DecodeError Instruction :=
  match bytes with
  | [b0, b1, b2, b3, b4, b5, b6, b7] => do
    let opcode ← Opcode.tryFrom b0
    let typeTag ← TypeTag.tryFrom b1
    let arg1 := b2 + 256 * b3
    let arg2 := b4 + 256 * b5
    let arg3 := b6 + 256 * b7
    .ok { opcode, typeTag, arg1, arg2, arg3 }
  | other => .error (.InvalidLength other.length)

/-- Runtime values, from `crates/common/src/value.rs`.  `F64` carries the
IEEE 754 bit pattern (the VM compares floats only through the abstract
`FloatOps` below, and rejects NaN / infinity at creation). `Char` carries
the Unicode codepoint. -/
inductive Value where
  | I64 : Int → Value
  | U64 : Nat → Value
  | F64 : Nat → Value
  | Bool : Bool → Value
  | Char : Nat → Value
  | Unit : Value
  | Variant : Nat → Nat → Value → Value
  | Tuple : List Value → Value
  | Array : List Value → Value
deriving Repr

/-- `Value::type_tag` (`value.rs`). -/
def Value.typeTag : Value → TypeTag
  | .I64 _ => .I64
  | .U64 _ => .U64
  | .F64 _ => .F64
  | .Bool _ => .Bool
  | .Char _ => .Char
  | .Unit => .Unit
  | .Variant _ _ _ => .Variant
  | .Tuple _ => .Tuple
  | .Array _ => .Array

/-- Sign extension of a 32-bit value to a signed integer
(Rust `val32 as i32 as i64`). -/
def signExtend32 (v : Nat) : Int :=
  if v < 2 ^ 31 then (v : Int) else (v : Int) - 2 ^ 32

/-- Rust `char::from_u32 n`: `Some` exactly for Unicode scalar values
(codepoints `≤ 0x10FFFF` that are not UTF-16 surrogates). -/
def charFromU32 (n : Nat) : Option Nat :=
  if n ≤ 0x10FFFF ∧ ¬(0xD800 ≤ n ∧ n ≤ 0xDFFF) then some n else none

/-- `Instruction::const_value` (`instruction.rs`): project the constant
pushed by a CONST instruction; `val32 = (arg1 as u32) << 16 | arg2`. -/
def Instruction.constValue (i : Instruction) : Option Value :=
  if i.opcode ≠ Opcode.Const then
    none
  else
    let val32 := i.arg1 * 2 ^ 16 + i.arg2
    match i.typeTag with
    | .I64 => some (.I64 (signExtend32 val32))
    | .U64 => some (.U64 val32)
    | .Bool => some (.Bool (i.arg1 ≠ 0))
    | .Char => (charFromU32 i.arg1).map Value.Char
    | .Unit => some .Unit
    | _ => none

/-- A program, from `crates/common/src/program.rs`. -/
structure Program where
  instructions : List Instruction
deriving Repr

/-- `Program::new`. -/
def Program.new (instructions : List Instruction) : Program :=
  { instructions }

/-- `Program::encode`: concatenation of the 8-byte instruction encodings. -/
def Program.encode (p : Program) : List Nat :=
  (p.instructions.map Instruction.encode).flatten

/-- The chunking loop of `Program::decode` (`chunks_exact(8)`; the trailing
short-chunk case is unreachable under the length guard). -/
def decodeChunks : List Nat → Except DecodeError (List Instruction)
  | [] => .ok []
  | b0 :: b1 :: b2 :: b3 :: b4 :: b5 :: b6 :: b7 :: rest => do
    let i ← Instruction.decode [b0, b1, b2, b3, b4, b5, b6, b7]
    let is ← decodeChunks rest
    .ok (i :: is)
  | other => .error (.InvalidLength other.length)

/-- `Program::decode` (`program.rs`): reject lengths that are not a multiple
of 8, then decode each 8-byte chunk. -/
def Program.decode (bytes : List Nat) : Except DecodeError Program :=
  if bytes.length % 8 ≠ 0 then
    .error (.InvalidLength bytes.length)
  else
    (decodeChunks bytes).map Program.new

/-! ## Verifier (`crates/verifier/src`) -/

/-- Verification errors, from `crates/verifier/src/error.rs`.  Constructor
arguments follow the Rust field order; `HashMismatch` carries the two 6-byte
arrays as byte lists. -/
inductive VerifyError where
  | MissingHalt : VerifyError
  | UnmatchedFunc : Nat → VerifyError
  | UnmatchedMatch : Nat → VerifyError
  | NestedFunc : Nat → VerifyError
  | CaseOrderViolation : Nat → Nat → Nat → VerifyError
  | NonZeroUnusedField : Nat → VerifyError
  | TypeMismatch : Nat → TypeTag → TypeTag → VerifyError
  | UnresolvableRef : Nat → Nat → Nat → VerifyError
  | NonExhaustiveMatch : Nat → Nat → Nat → VerifyError
  | DuplicateCase : Nat → Nat → VerifyError
  | HashMismatch : Nat → List Nat → List Nat → VerifyError
  | MissingHash : Nat → VerifyError
  | PreConditionNotBool : Nat → VerifyError
  | PostConditionNotBool : Nat → VerifyError
  | UnreachableInstruction : Nat → VerifyError
  | StackUnderflow : Nat → VerifyError
  | UnbalancedStack : Nat → Nat → VerifyError
  | ProgramTooLarge : Nat → VerifyError
  | RefTooDeep : Nat → Nat → VerifyError
  | RecursionLimitTooHigh : Nat → Nat → VerifyError
  | ParamCountMismatch : Nat → Nat → Nat → VerifyError
deriving DecidableEq, Repr

/-- `MAX_PROGRAM_SIZE` (`limits.rs`). -/
def MAX_PROGRAM_SIZE : Nat := 65536

/-- `MAX_REF_INDEX` (`limits.rs`). -/
def MAX_REF_INDEX : Nat := 4096

/-- `MAX_RECURSION_LIMIT` (`limits.rs`). -/
def MAX_RECURSION_LIMIT : Nat := 1024

/-- The per-instruction loop of `check_limits` (`limits.rs`), with `i` the
index of the head instruction. -/
def checkLimitsGo (i : Nat) : List Instruction → List VerifyError
  | [] => []
  | instr :: rest =>
    (match instr.opcode with
     | .Ref => if instr.arg1 > MAX_REF_INDEX then [.RefTooDeep i instr.arg1] else []
     | .Recurse =>
       if instr.arg1 > MAX_RECURSION_LIMIT then [.RecursionLimitTooHigh i instr.arg1] else []
     | _ => []) ++ checkLimitsGo (i + 1) rest

/-- `check_limits` (`limits.rs`). -/
def checkLimits (instrs : List Instruction) : List VerifyError :=
  (if instrs.length > MAX_PROGRAM_SIZE then [.ProgramTooLarge instrs.length] else [])
    ++ checkLimitsGo 0 instrs

/-- `FuncInfo` (`structural.rs`): function metadata from the structural pass.
PRE/POST blocks are `(block_instr_pc, start_pc, len)` triples. -/
structure FuncInfo where
  funcPc : Nat
  endfuncPc : Nat
  paramCount : Nat
  bodyLen : Nat
  paramTypes : List TypeTag
  preConditions : List (Nat × Nat × Nat)
  postConditions : List (Nat × Nat × Nat)
  bodyStartPc : Nat
  hashPc : Option Nat
deriving DecidableEq, Repr

/-- `MatchInfo` (`structural.rs`): cases are `(case_pc, tag, body_len)`. -/
structure MatchInfo where
  matchPc : Nat
  variantCount : Nat
  cases : List (Nat × Nat × Nat)
  exhaustPc : Nat
deriving DecidableEq, Repr

/-- `ProgramContext` (`structural.rs`). -/
structure ProgramContext where
  functions : List FuncInfo
  matchInfos : List MatchInfo
  entryPoint : Nat
  fatal : Bool
deriving Repr

/-- Out-of-range placeholder for guarded `instrs[pc]` indexing (every use
in the embedded passes sits behind the same bounds check as the source). -/
def getI (instrs : List Instruction) (pc : Nat) : Instruction :=
  instrs.getD pc (Instruction.new .Nop .None 0 0 0)

/-- The opcode at `pc`, or `Nop` out of range (see `getI`). -/
def opAt (instrs : List Instruction) (pc : Nat) : Opcode :=
  (getI instrs pc).opcode

/-- `check_unused_fields` (`structural.rs`): which of
`(type_tag, arg1, arg2, arg3)` may be non-zero for each opcode. -/
def usedFields : Opcode → Bool × Bool × Bool × Bool
  | .Bind => (false, false, false, false)
  | .Ref => (false, true, false, false)
  | .Drop => (false, false, false, false)
  | .Const => (true, true, true, false)
  | .ConstExt => (true, true, false, false)
  | .Add | .Sub | .Mul | .Div | .Mod | .Neg => (false, false, false, false)
  | .Eq | .Neq | .Lt | .Gt | .Lte | .Gte => (false, false, false, false)
  | .And | .Or | .Not | .Xor | .Shl | .Shr => (false, false, false, false)
  | .Match => (false, true, false, false)
  | .Case => (false, true, true, false)
  | .Exhaust => (false, false, false, false)
  | .Func => (false, true, true, false)
  | .Pre => (false, true, false, false)
  | .Post => (false, true, false, false)
  | .Ret => (false, false, false, false)
  | .Call => (false, true, false, false)
  | .Recurse => (false, true, false, false)
  | .EndFunc => (false, false, false, false)
  | .Param => (true, false, false, false)
  | .VariantNew => (true, true, true, false)
  | .TupleNew => (true, true, false, false)
  | .Project => (false, true, false, false)
  | .ArrayNew => (true, true, false, false)
  | .ArrayGet => (false, false, false, false)
  | .ArrayLen => (false, false, false, false)
  | .Hash => (false, true, true, true)
  | .Assert => (false, false, false, false)
  | .Typeof => (false, true, false, false)
  | .Halt => (false, false, false, false)
  | .Nop => (false, false, false, false)

/-- The error emitted by `check_unused_fields` (`structural.rs`), if any. -/
def checkUnusedFields (instr : Instruction) (i : Nat) : List VerifyError :=
  let (usedTt, usedA1, usedA2, usedA3) := usedFields instr.opcode
  let hasNonzero :=
    (!usedTt && instr.typeTag ≠ TypeTag.None)
    || (!usedA1 && instr.arg1 ≠ 0)
    || (!usedA2 && instr.arg2 ≠ 0)
    || (!usedA3 && instr.arg3 ≠ 0)
  if hasNonzero then [.NonZeroUnusedField i] else []

/-- The PARAM collection loop of the `Func` arm of `check_structural`
(`structural.rs` lines 106-110): collect `type_tag`s of leading PARAMs
below `endfunc`, returning them with the final scan position. -/
def collectParams (instrs : List Instruction) (endfunc scan : Nat) :
    List TypeTag × Nat :=
  if h : scan < endfunc ∧ opAt instrs scan = Opcode.Param then
    let (tts, fin) := collectParams instrs endfunc (scan + 1)
    ((getI instrs scan).typeTag :: tts, fin)
  else
    ([], scan)
termination_by endfunc - scan
decreasing_by omega

/-- The PRE collection loop of `check_structural` (lines 121-127): each block
is recorded as `(scan_pc, scan_pc + 1, len)` and skipped over. -/
def collectPre (instrs : List Instruction) (endfunc scan : Nat) :
    List (Nat × Nat × Nat) × Nat :=
  if h : scan < endfunc ∧ opAt instrs scan = Opcode.Pre then
    let len := (getI instrs scan).arg1
    let (blocks, fin) := collectPre instrs endfunc (scan + 1 + len)
    ((scan, scan + 1, len) :: blocks, fin)
  else
    ([], scan)
termination_by endfunc - scan
decreasing_by omega

/-- The POST collection loop of `check_structural` (lines 129-135). -/
def collectPost (instrs : List Instruction) (endfunc scan : Nat) :
    List (Nat × Nat × Nat) × Nat :=
  if h : scan < endfunc ∧ opAt instrs scan = Opcode.Post then
    let len := (getI instrs scan).arg1
    let (blocks, fin) := collectPost instrs endfunc (scan + 1 + len)
    ((scan, scan + 1, len) :: blocks, fin)
  else
    ([], scan)
termination_by endfunc - scan
decreasing_by omega

/-- The CASE scanning loop of the `Match` arm of `check_structural`
(lines 182-191): up to `count` CASE entries, stopping early at a non-CASE
or the end of the program. -/
def scanCasesStructural (instrs : List Instruction) (count scan : Nat) :
    List (Nat × Nat × Nat) × Nat :=
  match count with
  | 0 => ([], scan)
  | n + 1 =>
    if scan ≥ instrs.length ∨ opAt instrs scan ≠ Opcode.Case then
      ([], scan)
    else
      let caseTag := (getI instrs scan).arg1
      let bodyLen := (getI instrs scan).arg2
      let (entries, fin) := scanCasesStructural instrs n (scan + 1 + bodyLen)
      ((scan, caseTag, bodyLen) :: entries, fin)

/-- The CASE-order check of `check_structural` (lines 204-216): compare each
case tag with its predecessor, requiring strict ascent. -/
def caseOrderErrors : List (Nat × Nat × Nat) → List VerifyError
  | (_, prevTag, _) :: (curPc, curTag, curLen) :: rest =>
    (if curTag ≤ prevTag then [.CaseOrderViolation curPc (prevTag + 1) curTag] else [])
      ++ caseOrderErrors ((curPc, curTag, curLen) :: rest)
  | _ => []

/-- Accumulator state of the `check_structural` scan. -/
structure StructuralState where
  errors : List VerifyError
  functions : List FuncInfo
  matchInfos : List MatchInfo
  fatal : Bool
  inFunc : Option Nat
deriving Repr

/-- The single linear scan of `check_structural` (`structural.rs` lines
73-242).  The Rust `while` loop advances `pc` by at least one per iteration,
so `fuel ≥ instrs.length` makes this fueled version exact. -/
def checkStructuralGo (instrs : List Instruction) :
    Nat → Nat → StructuralState → StructuralState
  | 0, _, st => st
  | fuel + 1, pc, st =>
    if pc ≥ instrs.length then st else
    let instr := getI instrs pc
    match instr.opcode with
    | .Func =>
      match st.inFunc with
      | some _ =>
        checkStructuralGo instrs fuel (pc + 1)
          { st with errors := st.errors ++ [.NestedFunc pc], fatal := true }
      | none =>
        let paramCount := instr.arg1
        let bodyLen := instr.arg2
        let expectedEndfunc := pc + 1 + bodyLen
        if expectedEndfunc ≥ instrs.length
            ∨ opAt instrs expectedEndfunc ≠ Opcode.EndFunc then
          checkStructuralGo instrs fuel (pc + 1)
            { st with errors := st.errors ++ [.UnmatchedFunc pc], fatal := true }
        else
          let (paramTypes, scan1) := collectParams instrs expectedEndfunc (pc + 1)
          let paramErrs :=
            if paramTypes.length ≠ paramCount then
              [VerifyError.ParamCountMismatch pc paramCount paramTypes.length]
            else []
          let (preConditions, scan2) := collectPre instrs expectedEndfunc scan1
          let (postConditions, bodyStartPc) := collectPost instrs expectedEndfunc scan2
          let hashPc :=
            if expectedEndfunc ≥ 2 ∧ opAt instrs (expectedEndfunc - 1) = Opcode.Hash then
              some (expectedEndfunc - 1)
            else none
          let fi : FuncInfo :=
            { funcPc := pc, endfuncPc := expectedEndfunc, paramCount,
              bodyLen, paramTypes, preConditions, postConditions,
              bodyStartPc, hashPc }
          checkStructuralGo instrs fuel (pc + 1)
            { st with errors := st.errors ++ paramErrs,
                      functions := st.functions ++ [fi],
                      inFunc := some pc }
    | .EndFunc =>
      let errs := if st.inFunc.isNone then [VerifyError.UnmatchedFunc pc] else []
      checkStructuralGo instrs fuel (pc + 1)
        { st with errors := st.errors ++ errs,
                  fatal := st.fatal || st.inFunc.isNone,
                  inFunc := none }
    | .Match =>
      let variantCount := instr.arg1
      let (caseEntries, scanEnd) := scanCasesStructural instrs variantCount (pc + 1)
      if scanEnd < instrs.length ∧ opAt instrs scanEnd = Opcode.Exhaust then
        let mi : MatchInfo :=
          { matchPc := pc, variantCount, cases := caseEntries, exhaustPc := scanEnd }
        checkStructuralGo instrs fuel (scanEnd + 1)
          { st with errors := st.errors ++ caseOrderErrors caseEntries,
                    matchInfos := st.matchInfos ++ [mi] }
      else
        checkStructuralGo instrs fuel (pc + 1)
          { st with errors := st.errors ++ [.UnmatchedMatch pc] }
    | _ =>
      let nextPc :=
        if instr.opcode = Opcode.ConstExt ∧ pc + 1 < instrs.length
        then pc + 2 else pc + 1
      checkStructuralGo instrs fuel nextPc
        { st with errors := st.errors ++ checkUnusedFields instr pc }

/-- `check_structural` (`structural.rs`): MissingHalt check, the linear scan,
the EOF unmatched-FUNC check, and the entry point. -/
def checkStructural (instrs : List Instruction) :
    ProgramContext × List VerifyError :=
  let haltErrs :=
    if instrs = [] ∨ (instrs.getLast?.map Instruction.opcode) ≠ some Opcode.Halt
    then [VerifyError.MissingHalt] else []
  let st := checkStructuralGo instrs (instrs.length + 1) 0
    { errors := haltErrs, functions := [], matchInfos := [],
      fatal := false, inFunc := none }
  let finalErrs :=
    match st.inFunc with
    | some funcPc => st.errors ++ [.UnmatchedFunc funcPc]
    | none => st.errors
  let fatal := st.fatal || st.inFunc.isSome
  let entryPoint := (st.functions.getLast?.map (·.endfuncPc + 1)).getD 0
  ({ functions := st.functions, matchInfos := st.matchInfos, entryPoint, fatal },
   finalErrs)

/-- The duplicate-tag walk of `check_exhaustion` (`exhaustion.rs` lines
27-34), carrying the `seen_tags` accumulator. -/
def duplicateCaseErrors (seen : List Nat) :
    List (Nat × Nat × Nat) → List VerifyError
  | [] => []
  | (casePc, tag, _) :: rest =>
    if tag ∈ seen then
      .DuplicateCase casePc tag :: duplicateCaseErrors seen rest
    else
      duplicateCaseErrors (seen ++ [tag]) rest

/-- `check_exhaustion` (`exhaustion.rs`). -/
def checkExhaustion (ctx : ProgramContext) : List VerifyError :=
  ctx.matchInfos.flatMap fun mi =>
    (if mi.cases.length ≠ mi.variantCount then
      [VerifyError.NonExhaustiveMatch mi.matchPc mi.variantCount mi.cases.length]
     else [])
      ++ duplicateCaseErrors [] mi.cases

/-- Byte list hashed for one function (`hashing.rs` lines 51-54): the 8-byte
encodings of the instructions in `[func_pc, hash_pc)`, concatenated. -/
def hashInputBytes (instrs : List Instruction) (funcPc hashPc : Nat) :
    List Nat :=
  (((instrs.drop funcPc).take (hashPc - funcPc)).map Instruction.encode).flatten

/-- The per-function body of `check_hashing` (`hashing.rs` lines 39-83),
parameterised by the 32-byte `blake3` digest function (the `blake3` crate is
external to this repository).  The first six digest bytes are compared with
the big-endian bytes of the stored `(arg1, arg2, arg3)`. -/
def checkFuncHash (blake3 : List Nat → List Nat)
    (instrs : List Instruction) (func : FuncInfo) : List VerifyError :=
  match func.hashPc with
  | none => [.MissingHash func.funcPc]
  | some hashPc =>
    let computed := (blake3 (hashInputBytes instrs func.funcPc hashPc)).take 6
    let hashInstr := getI instrs hashPc
    let expected :=
      [hashInstr.arg1 / 256, hashInstr.arg1 % 256,
       hashInstr.arg2 / 256, hashInstr.arg2 % 256,
       hashInstr.arg3 / 256, hashInstr.arg3 % 256]
    if expected ≠ computed then [.HashMismatch hashPc expected computed] else []

/-- `check_hashing` (`hashing.rs`), parameterised by the digest function. -/
def checkHashing (blake3 : List Nat → List Nat)
    (instrs : List Instruction) (ctx : ProgramContext) : List VerifyError :=
  ctx.functions.flatMap (checkFuncHash blake3 instrs)

/-- The argument-popping loop of the `Call` arm of the type checker
(`types.rs` lines 249-261): the declared parameter types are walked in
reverse; each pops one simulated stack entry (when available) and is
compared against it unless declared `None`. -/
def callPopParams (pcN : Nat) :
    List TypeTag → List TypeTag → List VerifyError → List TypeTag × List VerifyError
  | [], stack, errs => (stack, errs)
  | expectedType :: rest, stack, errs =>
    match stack with
    | actualType :: stackRest =>
      callPopParams pcN rest stackRest
        (errs ++
          if actualType ≠ expectedType ∧ expectedType ≠ TypeTag.None then
            [.TypeMismatch pcN expectedType actualType]
          else [])
    | [] => callPopParams pcN rest [] errs

/-- `TypeChecker::check_range` (`types.rs` lines 58-345): a fueled version of
the `while pc < end` loop (each iteration advances `pc` by at least one, so
`fuel ≥ endIdx` makes it exact on contexts built by the structural pass).
The simulated stack and bindings keep the top / most-recent entry at the
list head. -/
def checkTypesGo (instrs : List Instruction) (ctx : ProgramContext)
    (endIdx : Nat) :
    Nat → Nat → List TypeTag → List TypeTag → List VerifyError → List VerifyError
  | 0, _, _, _, errs => errs
  | fuel + 1, pc, stack, bindings, errs =>
    if pc ≥ endIdx then errs else
    let instr := getI instrs pc
    match instr.opcode with
    | .Const =>
      checkTypesGo instrs ctx endIdx fuel (pc + 1) (instr.typeTag :: stack) bindings errs
    | .ConstExt =>
      checkTypesGo instrs ctx endIdx fuel (pc + 2) (instr.typeTag :: stack) bindings errs
    | .Bind =>
      match stack with
      | tt :: stackRest =>
        checkTypesGo instrs ctx endIdx fuel (pc + 1) stackRest (tt :: bindings) errs
      | [] => checkTypesGo instrs ctx endIdx fuel (pc + 1) [] bindings errs
    | .Ref =>
      let index := instr.arg1
      if index ≥ bindings.length then
        checkTypesGo instrs ctx endIdx fuel (pc + 1) (TypeTag.None :: stack) bindings
          (errs ++ [.UnresolvableRef pc index bindings.length])
      else
        checkTypesGo instrs ctx endIdx fuel (pc + 1)
          (bindings.getD index TypeTag.None :: stack) bindings errs
    | .Drop =>
      checkTypesGo instrs ctx endIdx fuel (pc + 1) stack bindings.tail errs
    | .Add | .Sub | .Mul | .Div =>
      match stack with
      | b :: a :: stackRest =>
        let mismatch := if a ≠ b then [VerifyError.TypeMismatch pc a b] else []
        let nonNumeric :=
          if ¬isNumericTag a then [VerifyError.TypeMismatch pc TypeTag.I64 a] else []
        checkTypesGo instrs ctx endIdx fuel (pc + 1) (a :: stackRest) bindings
          (errs ++ mismatch ++ nonNumeric)
      | _ => checkTypesGo instrs ctx endIdx fuel (pc + 1) stack bindings errs
    | .Mod =>
      match stack with
      | b :: a :: stackRest =>
        let mismatch := if a ≠ b then [VerifyError.TypeMismatch pc a b] else []
        let nonInt :=
          if a ≠ TypeTag.I64 ∧ a ≠ TypeTag.U64 then
            [VerifyError.TypeMismatch pc TypeTag.I64 a]
          else []
        checkTypesGo instrs ctx endIdx fuel (pc + 1) (a :: stackRest) bindings
          (errs ++ mismatch ++ nonInt)
      | _ => checkTypesGo instrs ctx endIdx fuel (pc + 1) stack bindings errs
    | .Neg =>
      match stack with
      | a :: stackRest =>
        let bad :=
          if a ≠ TypeTag.I64 ∧ a ≠ TypeTag.F64 then
            [VerifyError.TypeMismatch pc TypeTag.I64 a]
          else []
        checkTypesGo instrs ctx endIdx fuel (pc + 1) (a :: stackRest) bindings (errs ++ bad)
      | [] => checkTypesGo instrs ctx endIdx fuel (pc + 1) [] bindings errs
    | .Eq | .Neq | .Lt | .Gt | .Lte | .Gte =>
      -- the Bool result is pushed even when fewer than two operands remain
      match stack with
      | b :: a :: stackRest =>
        let mismatch := if a ≠ b then [VerifyError.TypeMismatch pc a b] else []
        checkTypesGo instrs ctx endIdx fuel (pc + 1) (TypeTag.Bool :: stackRest) bindings
          (errs ++ mismatch)
      | _ => checkTypesGo instrs ctx endIdx fuel (pc + 1) (TypeTag.Bool :: stack) bindings errs
    | .And | .Or | .Xor =>
      match stack with
      | b :: a :: stackRest =>
        let mismatch := if a ≠ b then [VerifyError.TypeMismatch pc a b] else []
        checkTypesGo instrs ctx endIdx fuel (pc + 1) (a :: stackRest) bindings
          (errs ++ mismatch)
      | _ => checkTypesGo instrs ctx endIdx fuel (pc + 1) stack bindings errs
    | .Not =>
      match stack with
      | a :: stackRest =>
        checkTypesGo instrs ctx endIdx fuel (pc + 1) (a :: stackRest) bindings errs
      | [] => checkTypesGo instrs ctx endIdx fuel (pc + 1) [] bindings errs
    | .Shl | .Shr =>
      match stack with
      | shiftT :: valueT :: stackRest =>
        let mismatch :=
          if shiftT ≠ valueT then [VerifyError.TypeMismatch pc valueT shiftT] else []
        checkTypesGo instrs ctx endIdx fuel (pc + 1) (valueT :: stackRest) bindings
          (errs ++ mismatch)
      | _ => checkTypesGo instrs ctx endIdx fuel (pc + 1) stack bindings errs
    | .Match =>
      let stack1 := stack.tail
      match ctx.matchInfos.find? (·.matchPc = pc) with
      | some mi =>
        checkTypesGo instrs ctx endIdx fuel (mi.exhaustPc + 1)
          (TypeTag.None :: stack1) bindings errs
      | none => checkTypesGo instrs ctx endIdx fuel (pc + 1) stack1 bindings errs
    | .Case =>
      checkTypesGo instrs ctx endIdx fuel (pc + 1 + instr.arg2) stack bindings errs
    | .Exhaust =>
      checkTypesGo instrs ctx endIdx fuel (pc + 1) stack bindings errs
    | .Func =>
      checkTypesGo instrs ctx endIdx fuel (pc + 1 + instr.arg2 + 1) stack bindings errs
    | .EndFunc | .Param =>
      checkTypesGo instrs ctx endIdx fuel (pc + 1) stack bindings errs
    | .Pre | .Post =>
      checkTypesGo instrs ctx endIdx fuel (pc + 1 + instr.arg1) stack bindings errs
    | .Call =>
      match ctx.functions.get? instr.arg1 with
      | some func =>
        let (stack1, errs1) := callPopParams pc func.paramTypes.reverse stack errs
        checkTypesGo instrs ctx endIdx fuel (pc + 1) (TypeTag.None :: stack1) bindings errs1
      | none => checkTypesGo instrs ctx endIdx fuel (pc + 1) stack bindings errs
    | .Recurse =>
      checkTypesGo instrs ctx endIdx fuel (pc + 1) (TypeTag.None :: stack) bindings errs
    | .Ret =>
      checkTypesGo instrs ctx endIdx fuel (pc + 1) stack bindings errs
    | .VariantNew =>
      checkTypesGo instrs ctx endIdx fuel (pc + 1) (TypeTag.Variant :: stack.tail) bindings errs
    | .TupleNew =>
      checkTypesGo instrs ctx endIdx fuel (pc + 1)
        (TypeTag.Tuple :: stack.drop instr.arg1) bindings errs
    | .Project =>
      checkTypesGo instrs ctx endIdx fuel (pc + 1) (TypeTag.None :: stack.tail) bindings errs
    | .ArrayNew =>
      checkTypesGo instrs ctx endIdx fuel (pc + 1)
        (TypeTag.Array :: stack.drop instr.arg1) bindings errs
    | .ArrayGet =>
      checkTypesGo instrs ctx endIdx fuel (pc + 1) (TypeTag.None :: stack.drop 2) bindings errs
    | .ArrayLen =>
      checkTypesGo instrs ctx endIdx fuel (pc + 1) (TypeTag.U64 :: stack.tail) bindings errs
    | .Hash | .Nop =>
      checkTypesGo instrs ctx endIdx fuel (pc + 1) stack bindings errs
    | .Assert =>
      match stack with
      | tt :: stackRest =>
        let bad :=
          if tt ≠ TypeTag.Bool ∧ tt ≠ TypeTag.None then
            [VerifyError.TypeMismatch pc TypeTag.Bool tt]
          else []
        checkTypesGo instrs ctx endIdx fuel (pc + 1) stackRest bindings (errs ++ bad)
      | [] => checkTypesGo instrs ctx endIdx fuel (pc + 1) [] bindings errs
    | .Typeof =>
      checkTypesGo instrs ctx endIdx fuel (pc + 1) (TypeTag.Bool :: stack) bindings errs
    | .Halt =>
      checkTypesGo instrs ctx endIdx fuel (pc + 1) stack bindings errs

/-- `check_types` (`types.rs`): entry-point region with no bindings, then
each function body seeded with its parameter types (the `Vec` seed
`param_types` becomes the reversed list under the head-is-most-recent
convention). -/
def checkTypes (instrs : List Instruction) (ctx : ProgramContext) :
    List VerifyError :=
  (if ctx.entryPoint < instrs.length then
    checkTypesGo instrs ctx instrs.length (instrs.length + 1) ctx.entryPoint [] [] []
   else [])
    ++ ctx.functions.flatMap fun func =>
      checkTypesGo instrs ctx func.endfuncPc (instrs.length + 1)
        func.bodyStartPc [] func.paramTypes.reverse []

/-- `condition_produces_bool` (`contracts.rs` lines 37-130): a fueled version
of the simulation loop (one `pc` step per fuel unit; `fuel ≥ len` is exact).
The `Implies` / `Forall` arms of the source concern opcodes that are not in
this crate's 45-opcode `Opcode` table and are unrepresentable here. -/
def conditionGo (instrs : List Instruction) (stop : Nat) :
    Nat → Nat → List TypeTag → List TypeTag → List TypeTag
  | 0, _, stack, _ => stack
  | fuel + 1, pc, stack, bindings =>
    if pc ≥ stop ∨ pc ≥ instrs.length then stack else
    let instr := getI instrs pc
    match instr.opcode with
    | .Const => conditionGo instrs stop fuel (pc + 1) (instr.typeTag :: stack) bindings
    | .ConstExt => conditionGo instrs stop fuel (pc + 2) (instr.typeTag :: stack) bindings
    | .Ref =>
      let pushed :=
        if instr.arg1 < bindings.length then bindings.getD instr.arg1 TypeTag.None
        else TypeTag.None
      conditionGo instrs stop fuel (pc + 1) (pushed :: stack) bindings
    | .Bind =>
      match stack with
      | tt :: stackRest => conditionGo instrs stop fuel (pc + 1) stackRest (tt :: bindings)
      | [] => conditionGo instrs stop fuel (pc + 1) [] bindings
    | .Drop => conditionGo instrs stop fuel (pc + 1) stack bindings.tail
    | .Add | .Sub | .Mul | .Div | .Mod =>
      let a := (stack.drop 1).headD TypeTag.None
      conditionGo instrs stop fuel (pc + 1) (a :: stack.drop 2) bindings
    | .Neg | .Not =>
      let a := stack.headD TypeTag.None
      conditionGo instrs stop fuel (pc + 1) (a :: stack.tail) bindings
    | .Eq | .Neq | .Lt | .Gt | .Lte | .Gte =>
      conditionGo instrs stop fuel (pc + 1) (TypeTag.Bool :: stack.drop 2) bindings
    | .And | .Or | .Xor =>
      let a := (stack.drop 1).headD TypeTag.None
      conditionGo instrs stop fuel (pc + 1) (a :: stack.drop 2) bindings
    | .Shl | .Shr =>
      let val := (stack.drop 1).headD TypeTag.None
      conditionGo instrs stop fuel (pc + 1) (val :: stack.drop 2) bindings
    | .Typeof => conditionGo instrs stop fuel (pc + 1) (TypeTag.Bool :: stack) bindings
    | .Assert => conditionGo instrs stop fuel (pc + 1) stack.tail bindings
    | _ => conditionGo instrs stop fuel (pc + 1) stack bindings

/-- `condition_produces_bool`: the final stack top must be `Bool`. -/
def conditionProducesBool (instrs : List Instruction) (start len : Nat)
    (initialBindings : List TypeTag) : Bool :=
  (conditionGo instrs (start + len) (len + 1) start [] initialBindings).head?
    = some TypeTag.Bool

/-- `check_contracts` (`contracts.rs`): PRE blocks simulate over the
parameter types; POST blocks additionally see a `None` placeholder for the
return value as the most recent binding. -/
def checkContracts (instrs : List Instruction) (ctx : ProgramContext) :
    List VerifyError :=
  ctx.functions.flatMap fun func =>
    (func.preConditions.flatMap fun (prePc, start, len) =>
      if ¬conditionProducesBool instrs start len func.paramTypes.reverse then
        [VerifyError.PreConditionNotBool prePc]
      else [])
    ++ (func.postConditions.flatMap fun (postPc, start, len) =>
      if ¬conditionProducesBool instrs start len
          (TypeTag.None :: func.paramTypes.reverse) then
        [VerifyError.PostConditionNotBool postPc]
      else [])

/-- `stack_pops` (`stack.rs`): number of values an opcode pops. -/
def stackPops (instr : Instruction) : Nat :=
  match instr.opcode with
  | .Const | .ConstExt | .Ref | .Nop | .Hash | .Halt | .EndFunc | .Func
  | .Pre | .Post | .Param | .Exhaust => 0
  | .Bind | .Neg | .Not | .Match | .Assert | .Drop | .ArrayLen | .Ret
  | .VariantNew => 1
  | .Add | .Sub | .Mul | .Div | .Mod | .Eq | .Neq | .Lt | .Gt | .Lte | .Gte
  | .And | .Or | .Xor | .Shl | .Shr | .ArrayGet => 2
  | .Typeof => 1
  | .Case => 0
  | .Call => 0
  | .Recurse => 0
  | .Project => 1
  | .TupleNew => 0
  | .ArrayNew => 0

/-- `stack_delta` (`stack.rs`): net stack depth change of an opcode. -/
def stackDelta (instr : Instruction) : Int :=
  match instr.opcode with
  | .Const | .ConstExt | .Ref => 1
  | .Bind | .Assert => -1
  | .Drop | .Nop | .Hash | .EndFunc | .Func | .Pre | .Post | .Param
  | .Exhaust | .Halt | .Case => 0
  | .Add | .Sub | .Mul | .Div | .Mod | .Eq | .Neq | .Lt | .Gt | .Lte | .Gte
  | .And | .Or | .Xor | .Shl | .Shr => -1
  | .Neg | .Not => 0
  | .ArrayGet => -1
  | .ArrayLen | .Project => 0
  | .Typeof => 1
  | .TupleNew => -((instr.arg1 : Int) - 1)
  | .ArrayNew => -((instr.arg1 : Int) - 1)
  | .VariantNew => 0
  | .Match => -1
  | .Ret => -1
  | .Call => 0
  | .Recurse => 0

/-- `check_range` of the stack-balance pass (`stack.rs` lines 35-115),
fueled (one loop iteration per unit; `pc` strictly increases, so
`fuel ≥ endIdx` is exact on structural contexts). -/
def checkStackGo (instrs : List Instruction) (ctx : ProgramContext)
    (endIdx : Nat) : Nat → Nat → Int → List VerifyError
  | 0, _, _ => []
  | fuel + 1, pc, depth =>
    if pc ≥ endIdx then [] else
    let instr := getI instrs pc
    let required := stackPops instr
    if depth < (required : Int) then [.StackUnderflow pc] else
    let depth := depth + stackDelta instr
    if depth < 0 then [.StackUnderflow pc] else
    match instr.opcode with
    | .Halt =>
      if depth ≠ 1 then [.UnbalancedStack pc depth.toNat] else []
    | .ConstExt => checkStackGo instrs ctx endIdx fuel (pc + 2) depth
    | .Match =>
      match ctx.matchInfos.find? (·.matchPc = pc) with
      | some mi => checkStackGo instrs ctx endIdx fuel (mi.exhaustPc + 1) (depth + 1)
      | none => checkStackGo instrs ctx endIdx fuel (pc + 1) depth
    | .Func =>
      checkStackGo instrs ctx endIdx fuel (pc + 1 + instr.arg2 + 1)
        (depth - stackDelta instr)
    | .Pre | .Post =>
      checkStackGo instrs ctx endIdx fuel (pc + 1 + instr.arg1)
        (depth - stackDelta instr)
    | .Ret => []
    | _ => checkStackGo instrs ctx endIdx fuel (pc + 1) depth

/-- `check_stack` (`stack.rs`). -/
def checkStack (instrs : List Instruction) (ctx : ProgramContext) :
    List VerifyError :=
  (if ctx.entryPoint < instrs.length then
    checkStackGo instrs ctx instrs.length (instrs.length + 1) ctx.entryPoint 0
   else [])
    ++ ctx.functions.flatMap fun func =>
      checkStackGo instrs ctx func.endfuncPc (instrs.length + 1) func.bodyStartPc 0

/-- Mark indices `start ≤ i < stop` reachable
(the `for flag in &mut reachable[start..stop]` loops of `reachability.rs`). -/
def setRange (reachable : List Bool) (start stop : Nat) : List Bool :=
  if start < stop then
    setRange (reachable.set start true) (start + 1) stop
  else reachable
termination_by stop - start

/-- `mark_reachable` (`reachability.rs` lines 81-146), fueled: each iteration
either advances `pc` or marks a previously unmarked index, so
`fuel ≥ (len + 1) ^ 2` is exact. -/
def markReachable (instrs : List Instruction) (ctx : ProgramContext)
    (endIdx : Nat) : Nat → Nat → List Bool → List Bool
  | 0, _, reachable => reachable
  | fuel + 1, pc, reachable =>
    if pc ≥ endIdx ∨ pc ≥ instrs.length then reachable else
    if reachable.getD pc false then
      markReachable instrs ctx endIdx fuel (pc + 1) reachable
    else
      let reachable := reachable.set pc true
      let instr := getI instrs pc
      match instr.opcode with
      | .Halt | .Ret => reachable
      | .ConstExt =>
        let reachable :=
          if pc + 1 < instrs.length then reachable.set (pc + 1) true else reachable
        markReachable instrs ctx endIdx fuel (pc + 2) reachable
      | .Match =>
        match ctx.matchInfos.find? (·.matchPc = pc) with
        | some mi =>
          let reachable := mi.cases.foldl
            (fun acc (entry : Nat × Nat × Nat) =>
              let (casePc, _, bodyLen) := entry
              setRange (acc.set casePc true) (casePc + 1)
                (min (casePc + 1 + bodyLen) instrs.length))
            reachable
          let reachable := reachable.set mi.exhaustPc true
          markReachable instrs ctx endIdx fuel (mi.exhaustPc + 1) reachable
        | none => markReachable instrs ctx endIdx fuel (pc + 1) reachable
      | .Func => markReachable instrs ctx endIdx fuel (pc + 1 + instr.arg2 + 1) reachable
      | .Case => markReachable instrs ctx endIdx fuel (pc + 1 + instr.arg2) reachable
      | .Pre | .Post => markReachable instrs ctx endIdx fuel (pc + 1 + instr.arg1) reachable
      | _ => markReachable instrs ctx endIdx fuel (pc + 1) reachable

/-- The PARAM-marking loop of `check_reachability` (lines 31-35). -/
def markParams (instrs : List Instruction) (endfunc : Nat) :
    Nat → List Bool → List Bool
  | pc, reachable =>
    if h : pc < endfunc ∧ opAt instrs pc = Opcode.Param then
      markParams instrs endfunc (pc + 1) (reachable.set pc true)
    else reachable
termination_by pc reachable => endfunc - pc
decreasing_by omega

/-- `check_reachability` (`reachability.rs`). -/
def checkReachability (instrs : List Instruction) (ctx : ProgramContext) :
    List VerifyError :=
  let len := instrs.length
  if len = 0 then [] else
  let fuel := (len + 1) * (len + 1)
  let reachable := List.replicate len false
  let reachable := markReachable instrs ctx len fuel ctx.entryPoint reachable
  let reachable := ctx.functions.foldl
    (fun acc func =>
      let acc := (acc.set func.funcPc true).set func.endfuncPc true
      let acc := markParams instrs func.endfuncPc (func.funcPc + 1) acc
      let acc := func.preConditions.foldl
        (fun a (blk : Nat × Nat × Nat) =>
          let (prePc, start, blen) := blk
          setRange (a.set prePc true) start (min (start + blen) len))
        acc
      let acc := func.postConditions.foldl
        (fun a (blk : Nat × Nat × Nat) =>
          let (postPc, start, blen) := blk
          setRange (a.set postPc true) start (min (start + blen) len))
        acc
      let acc := markReachable instrs ctx func.endfuncPc fuel func.bodyStartPc acc
      match func.hashPc with
      | some hashPc => acc.set hashPc true
      | none => acc)
    reachable
  (List.range len).flatMap fun i =>
    if reachable.getD i false then [] else [.UnreachableInstruction i]

/-- The collected error list of `verify` (`lib.rs` lines 53-84),
parameterised by the external `blake3` digest function. -/
def verifyErrors (blake3 : List Nat → List Nat) (p : Program) :
    List VerifyError :=
  let instrs := p.instructions
  let limitErrs := checkLimits instrs
  let (ctx, structuralErrs) := checkStructural instrs
  let laterErrs :=
    if ¬ctx.fatal then
      checkExhaustion ctx
        ++ checkHashing blake3 instrs ctx
        ++ checkTypes instrs ctx
        ++ checkContracts instrs ctx
        ++ checkStack instrs ctx
        ++ checkReachability instrs ctx
    else []
  limitErrs ++ structuralErrs ++ laterErrs

/-- `verify` (`lib.rs`): `Ok` iff the collected list is empty. -/
def verify (blake3 : List Nat → List Nat) (p : Program) :
    Except (List VerifyError) Unit :=
  let allErrors := verifyErrors blake3 p
  if allErrors.isEmpty then .ok () else .error allErrors

/-! ## Virtual machine (`crates/vm/src`) -/

/-- Runtime errors, from `crates/vm/src/error.rs`. -/
inductive RuntimeError where
  | DivisionByZero : Nat → RuntimeError
  | RecursionDepthExceeded : Nat → Nat → RuntimeError
  | ArrayIndexOutOfBounds : Nat → Nat → Nat → RuntimeError
  | PreconditionFailed : Nat → RuntimeError
  | PostconditionFailed : Nat → RuntimeError
  | StackOverflow : Nat → RuntimeError
  | HaltWithEmptyStack : RuntimeError
  | HaltWithMultipleValues : Nat → RuntimeError
  | FloatNaN : Nat → RuntimeError
  | FloatInfinity : Nat → RuntimeError
  | AssertFailed : Nat → RuntimeError
  | UnexpectedEndOfProgram : Nat → RuntimeError
  | StackUnderflow : Nat → RuntimeError
  | BindingOutOfRange : Nat → Nat → Nat → RuntimeError
  | ProjectOnNonTuple : Nat → RuntimeError
  | ProjectOutOfBounds : Nat → Nat → Nat → RuntimeError
  | NotAnArray : Nat → RuntimeError
  | NoMatchingCase : Nat → Nat → RuntimeError
  | UnknownFunction : Nat → Nat → RuntimeError
  | TypeMismatch : Nat → RuntimeError
deriving DecidableEq, Repr

/-- `MAX_STACK_DEPTH` (`machine.rs`). -/
def MAX_STACK_DEPTH : Nat := 4096

/-- `CallFrame` (`machine.rs`). -/
structure CallFrame where
  returnPc : Nat
  savedBindingDepth : Nat
  bodyStartPc : Nat
  recursionDepth : Nat
  postConditions : List (Nat × Nat)
  funcIndex : Nat
deriving Repr

/-- `FunctionInfo` (`machine.rs`): function metadata from the VM pre-scan.
PRE/POST blocks are `(start_pc, len)` pairs. -/
structure FunctionInfo where
  paramCount : Nat
  bodyStartPc : Nat
  preConditions : List (Nat × Nat)
  postConditions : List (Nat × Nat)
deriving DecidableEq, Repr

/-- The mutable parts of `VM` (`machine.rs`); the program itself is passed
separately.  All stacks keep their most recent element at the list head. -/
structure VMState where
  stack : List Value
  bindings : List Value
  callStack : List CallFrame
  pc : Nat
  functions : List FunctionInfo
  caseContexts : List (Nat × Nat)
deriving Repr

/-- The PRE/POST scanning loop inside `VM::scan_functions` (`machine.rs`
lines 90-104): collect PRE and POST blocks from `scan` on, stopping at the
first instruction that is neither (note: unlike the structural pass, this
loop has no PARAM handling and is bounded by the whole program, not by the
function's ENDFUNC). -/
def scanPrePostVM (instrs : List Instruction) (scan : Nat) :
    List (Nat × Nat) × List (Nat × Nat) × Nat :=
  if h : scan < instrs.length then
    if hp : opAt instrs scan = Opcode.Pre then
      let len := (getI instrs scan).arg1
      let (pre, post, fin) := scanPrePostVM instrs (scan + 1 + len)
      ((scan + 1, len) :: pre, post, fin)
    else if hq : opAt instrs scan = Opcode.Post then
      let len := (getI instrs scan).arg1
      let (pre, post, fin) := scanPrePostVM instrs (scan + 1 + len)
      (pre, (scan + 1, len) :: post, fin)
    else ([], [], scan)
  else ([], [], scan)
termination_by instrs.length - scan
decreasing_by all_goals omega

/-- The outer loop of `VM::scan_functions` (`machine.rs` lines 76-120). -/
def scanFunctionsGo (instrs : List Instruction) (pc : Nat)
    (acc : List FunctionInfo) : List FunctionInfo :=
  if h : pc < instrs.length then
    if opAt instrs pc = Opcode.Func then
      let paramCount := (getI instrs pc).arg1
      let bodyLen := (getI instrs pc).arg2
      let (preConditions, postConditions, bodyStartPc) := scanPrePostVM instrs (pc + 1)
      scanFunctionsGo instrs (pc + 1 + bodyLen + 1)
        (acc ++ [{ paramCount, bodyStartPc, preConditions, postConditions }])
    else
      scanFunctionsGo instrs (pc + 1) acc
  else acc
termination_by instrs.length - pc
decreasing_by all_goals omega

/-- `VM::scan_functions` (`machine.rs`). -/
def scanFunctions (instrs : List Instruction) : List FunctionInfo :=
  scanFunctionsGo instrs 0 []

/-- The index-tracking loop of `VM::find_entry_point` (`machine.rs`
lines 124-135): remember the index of the last ENDFUNC. -/
def findEntryGo : Nat → List Instruction → Option Nat → Option Nat
  | _, [], last => last
  | i, instr :: rest, last =>
    findEntryGo (i + 1) rest (if instr.opcode = Opcode.EndFunc then some i else last)

/-- `VM::find_entry_point`: one past the last ENDFUNC, else 0. -/
def findEntryPoint (instrs : List Instruction) : Nat :=
  ((findEntryGo 0 instrs none).map (· + 1)).getD 0

/-- `VM::push` (`machine.rs`): check the depth before pushing. -/
def vmPush (s : VMState) (value : Value) : Except RuntimeError VMState :=
  if s.stack.length ≥ MAX_STACK_DEPTH then
    .error (.StackOverflow s.pc)
  else
    .ok { s with stack := value :: s.stack }

/-- `VM::pop` (`machine.rs`). -/
def vmPop (s : VMState) : Except RuntimeError (Value × VMState) :=
  match s.stack with
  | v :: rest => .ok (v, { s with stack := rest })
  | [] => .error (.StackUnderflow s.pc)

/-- Pop `n` values, first-popped first (the argument-popping loops of
`exec_call` / `exec_recurse` / `exec_tuple_new` / `exec_array_new`). -/
def vmPopN : Nat → VMState → Except RuntimeError (List Value × VMState)
  | 0, s => .ok ([], s)
  | n + 1, s => do
    let (v, s) ← vmPop s
    let (vs, s) ← vmPopN n s
    .ok (v :: vs, s)

/-- `VM::fetch` (`machine.rs`). -/
def vmFetch (instrs : List Instruction) (s : VMState) :
    Except RuntimeError Instruction :=
  match instrs.get? s.pc with
  | some i => .ok i
  | none => .error (.UnexpectedEndOfProgram s.pc)

/-- The IEEE 754 operations of the external `f64` type, on 64-bit patterns.
The VM uses floats only through these (and through the `F64(0.0)` divisor
pattern, which is the exact bit test `bits ∈ {0, 2 ^ 63}` since Rust float
literal patterns compare with `==` and `0.0 == -0.0`). -/
structure FloatOps where
  fadd : Nat → Nat → Nat
  fsub : Nat → Nat → Nat
  fmul : Nat → Nat → Nat
  fdiv : Nat → Nat → Nat
  fneg : Nat → Nat
  feq : Nat → Nat → Bool
  fne : Nat → Nat → Bool
  flt : Nat → Nat → Bool
  fgt : Nat → Nat → Bool
  fle : Nat → Nat → Bool
  fge : Nat → Nat → Bool
  isNan : Nat → Bool
  isInf : Nat → Bool

/-- A vacuous `FloatOps` instantiation used by concrete runs that never
touch a float (everything is zero / false). -/
def zeroFloatOps : FloatOps :=
  { fadd := fun _ _ => 0, fsub := fun _ _ => 0, fmul := fun _ _ => 0,
    fdiv := fun _ _ => 0, fneg := fun _ => 0,
    feq := fun _ _ => false, fne := fun _ _ => false, flt := fun _ _ => false,
    fgt := fun _ _ => false, fle := fun _ _ => false, fge := fun _ _ => false,
    isNan := fun _ => false, isInf := fun _ => false }

/-- `VM::check_float` (`machine.rs`). -/
def checkFloat (fops : FloatOps) (s : VMState) (bits : Nat) :
    Except RuntimeError Unit :=
  if fops.isNan bits then .error (.FloatNaN s.pc)
  else if fops.isInf bits then .error (.FloatInfinity s.pc)
  else .ok ()

/-- Two's-complement bit pattern of an `i64` value. -/
def toBits64 (x : Int) : Nat := (x % (2 ^ 64 : Int)).toNat

/-- The `i64` value of a 64-bit two's-complement pattern. -/
def fromBits64 (n : Nat) : Int :=
  if n % 2 ^ 64 < 2 ^ 63 then (n % 2 ^ 64 : Nat) else (n % 2 ^ 64 : Nat) - 2 ^ 64

/-- `i64::wrapping_add`. -/
def i64WrappingAdd (x y : Int) : Int := fromBits64 (toBits64 x + toBits64 y)

/-- `i64::wrapping_sub`. -/
def i64WrappingSub (x y : Int) : Int :=
  fromBits64 (toBits64 x + (2 ^ 64 - toBits64 y))

/-- `i64::wrapping_mul`. -/
def i64WrappingMul (x y : Int) : Int := fromBits64 (toBits64 x * toBits64 y)

/-- `i64::wrapping_neg`. -/
def i64WrappingNeg (x : Int) : Int := fromBits64 (2 ^ 64 - toBits64 x)

/-- `i64::wrapping_div` (truncating division; `i64::MIN / -1` wraps). -/
def i64WrappingDiv (x y : Int) : Int := fromBits64 (toBits64 (Int.tdiv x y))

/-- `i64::wrapping_rem` (remainder with the sign of the dividend). -/
def i64WrappingRem (x y : Int) : Int := Int.tmod x y

/-- `u64::wrapping_add`. -/
def u64WrappingAdd (x y : Nat) : Nat := (x + y) % 2 ^ 64

/-- `u64::wrapping_sub`. -/
def u64WrappingSub (x y : Nat) : Nat := (x + (2 ^ 64 - y % 2 ^ 64)) % 2 ^ 64

/-- `u64::wrapping_mul`. -/
def u64WrappingMul (x y : Nat) : Nat := (x * y) % 2 ^ 64

/-- The shift amount of `wrapping_shl` / `wrapping_shr`: the value is taken
`as u32` and masked to the low 6 bits. -/
def shiftAmount64 (s : Int) : Nat := toBits64 s % 2 ^ 32 % 64

/-- `i64::wrapping_shl` by an `i64` shift operand taken `as u32`. -/
def i64WrappingShl (x s : Int) : Int :=
  fromBits64 (toBits64 x * 2 ^ shiftAmount64 s)

/-- `i64::wrapping_shr` (arithmetic right shift). -/
def i64WrappingShr (x s : Int) : Int := Int.fdiv x (2 ^ shiftAmount64 s)

/-- `u64::wrapping_shl` by a `u64` shift operand taken `as u32`. -/
def u64WrappingShl (x s : Nat) : Nat := x * 2 ^ (s % 2 ^ 32 % 64) % 2 ^ 64

/-- `u64::wrapping_shr` (logical right shift). -/
def u64WrappingShr (x s : Nat) : Nat := x / 2 ^ (s % 2 ^ 32 % 64)

/-- Rust `bool as i64` / `char as i64` (used by `exec_comparison`). -/
def boolAsI64 (b : Bool) : Int := if b then 1 else 0

/-- `exec_halt` (`execute.rs` lines 226-232): the result is decided by the
operand stack depth alone. -/
def execHalt (s : VMState) : Except RuntimeError Value :=
  match s.stack with
  | [] => .error .HaltWithEmptyStack
  | [v] => .ok v
  | vs => .error (.HaltWithMultipleValues vs.length)

/-- `exec_const` (`execute.rs`). -/
def execConst (instr : Instruction) (s : VMState) : Except RuntimeError VMState :=
  match instr.constValue with
  | some value => vmPush s value
  | none => .error (.UnexpectedEndOfProgram (s.pc - 1))

/-- `exec_const_ext` (`execute.rs`): `arg1` supplies the high 16 bits, the
next slot's `(arg1, arg2, arg3)` the low 48. -/
def execConstExt (fops : FloatOps) (instrs : List Instruction)
    (instr : Instruction) (s : VMState) : Except RuntimeError VMState := do
  let next ← vmFetch instrs s
  let s := { s with pc := s.pc + 1 }
  let high16 := instr.arg1
  let low48 := next.arg1 * 2 ^ 32 + next.arg2 * 2 ^ 16 + next.arg3
  let fullValue := high16 * 2 ^ 48 + low48
  match instr.typeTag with
  | .I64 => vmPush s (.I64 (fromBits64 fullValue))
  | .U64 => vmPush s (.U64 fullValue)
  | .F64 => do
    checkFloat fops s fullValue
    vmPush s (.F64 fullValue)
  | _ => .error (.UnexpectedEndOfProgram (s.pc - 2))

/-- `exec_bind` (`execute.rs`). -/
def execBind (s : VMState) : Except RuntimeError VMState := do
  let (value, s) ← vmPop s
  .ok { s with bindings := value :: s.bindings }

/-- `exec_ref` (`execute.rs`): de Bruijn index 0 is the most recent binding
(the head of the modelled list). -/
def execRef (instr : Instruction) (s : VMState) : Except RuntimeError VMState :=
  let index := instr.arg1
  let depth := s.bindings.length
  if index ≥ depth then
    .error (.BindingOutOfRange (s.pc - 1) instr.arg1 depth)
  else
    vmPush s (s.bindings.getD index Value.Unit)

/-- `exec_drop` (`execute.rs`). -/
def execDrop (s : VMState) : Except RuntimeError VMState :=
  match s.bindings with
  | [] => .error (.BindingOutOfRange (s.pc - 1) 0 0)
  | _ :: rest => .ok { s with bindings := rest }

/-- `exec_binary_arith` (`execute.rs`): pop two same-type numeric values,
apply the per-type operator, push the result (floats are checked). -/
def execBinaryArith (i64op : Int → Int → Int) (u64op : Nat → Nat → Nat)
    (f64op : Nat → Nat → Nat) (fops : FloatOps) (s : VMState) :
    Except RuntimeError VMState := do
  let (b, s) ← vmPop s
  let (a, s) ← vmPop s
  match a, b with
  | .I64 x, .I64 y => vmPush s (.I64 (i64op x y))
  | .U64 x, .U64 y => vmPush s (.U64 (u64op x y))
  | .F64 x, .F64 y => do
    let r := f64op x y
    checkFloat fops s r
    vmPush s (.F64 r)
  | _, _ => .error (.StackUnderflow (s.pc - 1))

/-- `exec_div` (`execute.rs`); the `F64(0.0)` divisor pattern matches the
two IEEE zero bit patterns. -/
def execDiv (fops : FloatOps) (s : VMState) : Except RuntimeError VMState := do
  let (b, s) ← vmPop s
  let (a, s) ← vmPop s
  match a, b with
  | .I64 _, .I64 0 => .error (.DivisionByZero (s.pc - 1))
  | .U64 _, .U64 0 => .error (.DivisionByZero (s.pc - 1))
  | .I64 x, .I64 y => vmPush s (.I64 (i64WrappingDiv x y))
  | .U64 x, .U64 y => vmPush s (.U64 (x / y))
  | .F64 x, .F64 y =>
    if y = 0 ∨ y = 2 ^ 63 then .error (.DivisionByZero (s.pc - 1))
    else do
      let r := fops.fdiv x y
      checkFloat fops s r
      vmPush s (.F64 r)
  | _, _ => .error (.StackUnderflow (s.pc - 1))

/-- `exec_mod` (`execute.rs`): I64/U64 only. -/
def execMod (s : VMState) : Except RuntimeError VMState := do
  let (b, s) ← vmPop s
  let (a, s) ← vmPop s
  match a, b with
  | .I64 _, .I64 0 => .error (.DivisionByZero (s.pc - 1))
  | .U64 _, .U64 0 => .error (.DivisionByZero (s.pc - 1))
  | .I64 x, .I64 y => vmPush s (.I64 (i64WrappingRem x y))
  | .U64 x, .U64 y => vmPush s (.U64 (x % y))
  | _, _ => .error (.StackUnderflow (s.pc - 1))

/-- `exec_neg` (`execute.rs`): I64/F64 only. -/
def execNeg (fops : FloatOps) (s : VMState) : Except RuntimeError VMState := do
  let (a, s) ← vmPop s
  match a with
  | .I64 x => vmPush s (.I64 (i64WrappingNeg x))
  | .F64 x => do
    let r := fops.fneg x
    checkFloat fops s r
    vmPush s (.F64 r)
  | _ => .error (.StackUnderflow (s.pc - 1))

/-- `exec_comparison` (`execute.rs`): Bool and Char compare through
`as i64`. -/
def execComparison (i64op : Int → Int → Bool) (u64op : Nat → Nat → Bool)
    (f64op : Nat → Nat → Bool) (s : VMState) : Except RuntimeError VMState := do
  let (b, s) ← vmPop s
  let (a, s) ← vmPop s
  match a, b with
  | .I64 x, .I64 y => vmPush s (.Bool (i64op x y))
  | .U64 x, .U64 y => vmPush s (.Bool (u64op x y))
  | .F64 x, .F64 y => vmPush s (.Bool (f64op x y))
  | .Bool x, .Bool y => vmPush s (.Bool (i64op (boolAsI64 x) (boolAsI64 y)))
  | .Char x, .Char y => vmPush s (.Bool (i64op (x : Int) (y : Int)))
  | _, _ => .error (.StackUnderflow (s.pc - 1))

/-- `exec_logic_and` (`execute.rs`). -/
def execLogicAnd (s : VMState) : Except RuntimeError VMState := do
  let (b, s) ← vmPop s
  let (a, s) ← vmPop s
  match a, b with
  | .Bool x, .Bool y => vmPush s (.Bool (x && y))
  | .I64 x, .I64 y => vmPush s (.I64 (fromBits64 (toBits64 x &&& toBits64 y)))
  | .U64 x, .U64 y => vmPush s (.U64 (x &&& y))
  | _, _ => .error (.StackUnderflow (s.pc - 1))

/-- `exec_logic_or` (`execute.rs`). -/
def execLogicOr (s : VMState) : Except RuntimeError VMState := do
  let (b, s) ← vmPop s
  let (a, s) ← vmPop s
  match a, b with
  | .Bool x, .Bool y => vmPush s (.Bool (x || y))
  | .I64 x, .I64 y => vmPush s (.I64 (fromBits64 (toBits64 x ||| toBits64 y)))
  | .U64 x, .U64 y => vmPush s (.U64 (x ||| y))
  | _, _ => .error (.StackUnderflow (s.pc - 1))

/-- `exec_logic_not` (`execute.rs`). -/
def execLogicNot (s : VMState) : Except RuntimeError VMState := do
  let (a, s) ← vmPop s
  match a with
  | .Bool x => vmPush s (.Bool (!x))
  | .I64 x => vmPush s (.I64 (fromBits64 (toBits64 x ^^^ (2 ^ 64 - 1))))
  | .U64 x => vmPush s (.U64 (x ^^^ (2 ^ 64 - 1)))
  | _ => .error (.StackUnderflow (s.pc - 1))

/-- `exec_logic_xor` (`execute.rs`). -/
def execLogicXor (s : VMState) : Except RuntimeError VMState := do
  let (b, s) ← vmPop s
  let (a, s) ← vmPop s
  match a, b with
  | .Bool x, .Bool y => vmPush s (.Bool (xor x y))
  | .I64 x, .I64 y => vmPush s (.I64 (fromBits64 (toBits64 x ^^^ toBits64 y)))
  | .U64 x, .U64 y => vmPush s (.U64 (x ^^^ y))
  | _, _ => .error (.StackUnderflow (s.pc - 1))

/-- `exec_shift_left` (`execute.rs`). -/
def execShiftLeft (s : VMState) : Except RuntimeError VMState := do
  let (shift, s) ← vmPop s
  let (value, s) ← vmPop s
  match value, shift with
  | .I64 x, .I64 sh => vmPush s (.I64 (i64WrappingShl x sh))
  | .U64 x, .U64 sh => vmPush s (.U64 (u64WrappingShl x sh))
  | _, _ => .error (.StackUnderflow (s.pc - 1))

/-- `exec_shift_right` (`execute.rs`): arithmetic for I64, logical for U64. -/
def execShiftRight (s : VMState) : Except RuntimeError VMState := do
  let (shift, s) ← vmPop s
  let (value, s) ← vmPop s
  match value, shift with
  | .I64 x, .I64 sh => vmPush s (.I64 (i64WrappingShr x sh))
  | .U64 x, .U64 sh => vmPush s (.U64 (u64WrappingShr x sh))
  | _, _ => .error (.StackUnderflow (s.pc - 1))

/-- The CASE-scanning loop of `exec_match` (`execute.rs` lines 583-602):
walk the `variant_count` CASE entries, remembering the FIRST one whose tag
equals the selector's as `(body_start, body_len)`. -/
def scanCasesVM (instrs : List Instruction) (tag : Nat) :
    Nat → Nat → Option (Nat × Nat) →
    Except RuntimeError (Nat × Option (Nat × Nat))
  | 0, scan, acc => .ok (scan, acc)
  | n + 1, scan, acc =>
    if scan ≥ instrs.length then .error (.UnexpectedEndOfProgram scan)
    else
      let caseInstr := getI instrs scan
      if caseInstr.opcode ≠ Opcode.Case then .error (.NoMatchingCase scan tag)
      else
        let caseTag := caseInstr.arg1
        let bodyLen := caseInstr.arg2
        let acc :=
          if caseTag = tag ∧ acc = none then some (scan + 1, bodyLen) else acc
        scanCasesVM instrs tag n (scan + 1 + bodyLen) acc

/-- The selector-tag extraction of `exec_match` (`execute.rs`): Bool → 0/1,
Variant → its tag, anything else is a `NoMatchingCase` error. -/
def matchTag (pcm : Nat) : Value → Except RuntimeError Nat
  | .Bool b => .ok (if b then 1 else 0)
  | .Variant _ t _ => .ok t
  | _ => .error (RuntimeError.NoMatchingCase pcm 0)

/-- The payload push of `exec_match` (`execute.rs`): a Variant selector
pushes its payload before the body runs, other selectors push nothing. -/
def matchPushPayload (s : VMState) : Value → Except RuntimeError VMState
  | .Variant _ _ payload => vmPush s payload
  | _ => .ok s

/-- `exec_match` (`execute.rs` lines 556-625): pop the selector, extract its
tag (Bool → 0/1, Variant → its tag), scan the CASEs, push the payload for a
Variant selector, jump to the matched body, record the case context. -/
def execMatch (instrs : List Instruction) (instr : Instruction)
    (s : VMState) : Except RuntimeError VMState := do
  let variantCount := instr.arg1
  let (matchedValue, s) ← vmPop s
  let tag ← matchTag (s.pc - 1) matchedValue
  let (scanEnd, found) ← scanCasesVM instrs tag variantCount s.pc none
  let afterExhaustPc := scanEnd + 1
  match found with
  | none => .error (.NoMatchingCase (s.pc - 1) tag)
  | some (bodyStart, bodyLen) => do
    let s ← matchPushPayload s matchedValue
    .ok { s with pc := bodyStart,
                 caseContexts := (bodyStart + bodyLen, afterExhaustPc) :: s.caseContexts }

/-- `exec_variant_new` (`execute.rs`). -/
def execVariantNew (instr : Instruction) (s : VMState) :
    Except RuntimeError VMState := do
  let (payload, s) ← vmPop s
  vmPush s (.Variant instr.arg1 instr.arg2 payload)

/-- `exec_tuple_new` (`execute.rs`): first popped becomes the last field. -/
def execTupleNew (instr : Instruction) (s : VMState) :
    Except RuntimeError VMState := do
  let (fields, s) ← vmPopN instr.arg1 s
  vmPush s (.Tuple fields.reverse)

/-- `exec_project` (`execute.rs`). -/
def execProject (instr : Instruction) (s : VMState) :
    Except RuntimeError VMState := do
  let fieldIndex := instr.arg1
  let (tuple, s) ← vmPop s
  match tuple with
  | .Tuple fields =>
    if fieldIndex ≥ fields.length then
      .error (.ProjectOutOfBounds (s.pc - 1) instr.arg1 fields.length)
    else
      vmPush s (fields.getD fieldIndex Value.Unit)
  | _ => .error (.ProjectOnNonTuple (s.pc - 1))

/-- `exec_array_new` (`execute.rs`): same ordering convention as tuples. -/
def execArrayNew (instr : Instruction) (s : VMState) :
    Except RuntimeError VMState := do
  let (elements, s) ← vmPopN instr.arg1 s
  vmPush s (.Array elements.reverse)

/-- `exec_array_get` (`execute.rs`): a non-U64 index and a non-Array value
raise the same `NotAnArray` error, so the two tests fold into one match. -/
def execArrayGet (s : VMState) : Except RuntimeError VMState := do
  let (indexVal, s) ← vmPop s
  let (arrayVal, s) ← vmPop s
  match indexVal, arrayVal with
  | .U64 index, .Array elements =>
    if index ≥ elements.length then
      .error (.ArrayIndexOutOfBounds (s.pc - 1) index elements.length)
    else
      vmPush s (elements.getD index Value.Unit)
  | _, _ => .error (.NotAnArray (s.pc - 1))

/-- `exec_array_len` (`execute.rs`). -/
def execArrayLen (s : VMState) : Except RuntimeError VMState := do
  let (arrayVal, s) ← vmPop s
  match arrayVal with
  | .Array elements => vmPush s (.U64 elements.length)
  | _ => .error (.NotAnArray (s.pc - 1))

/-- `exec_assert` (`execute.rs`). -/
def execAssert (s : VMState) : Except RuntimeError VMState := do
  let (val, s) ← vmPop s
  match val with
  | .Bool true => .ok s
  | _ => .error (.AssertFailed (s.pc - 1))

/-- `exec_typeof` (`execute.rs`): non-destructive type test
(`arg1 & 0xFF` is the queried tag byte). -/
def execTypeof (instr : Instruction) (s : VMState) :
    Except RuntimeError VMState :=
  match TypeTag.tryFrom (instr.arg1 % 256) with
  | .error _ => .error (RuntimeError.UnexpectedEndOfProgram (s.pc - 1))
  | .ok expected => do
    let (value, s) ← vmPop s
    let s ← vmPush s value
    vmPush s (.Bool (value.typeTag = expected))

/-- Result of a fueled VM computation producing an `α`: a value, a runtime
error, or fuel exhaustion (the Rust loops are unbounded). -/
inductive VmRes (α : Type) where
  | ok : α → VmRes α
  | err : RuntimeError → VmRes α
  | timeout : VmRes α
deriving Repr

/-- Lift an infallible-fuel step into `VmRes`. -/
def liftE {α : Type} : Except RuntimeError α → VmRes α
  | .ok a => .ok a
  | .error e => .err e

/-- The tail of `execute_ret` (`execute.rs`): after the postconditions ran,
truncate the bindings to the saved depth, restore the return pc and push the
return value. -/
def retFinish (callFrame : CallFrame) (rv : Value) : VmRes VMState → VmRes VMState
  | .ok s =>
    let s := { s with
      bindings := s.bindings.drop (s.bindings.length - callFrame.savedBindingDepth),
      pc := callFrame.returnPc }
    liftE (vmPush s rv)
  | r => r

mutual

/-- The `while self.pc < end_pc` loop of `execute_range` (`execute.rs`
lines 214-218): fetch, advance, `execute_one`. -/
def execRangeGo (fops : FloatOps) (instrs : List Instruction) :
    Nat → Nat → VMState → VmRes VMState
  | 0, _, _ => .timeout
  | fuel + 1, endPc, s =>
    if s.pc < endPc then
      match vmFetch instrs s with
      | .error e => .err e
      | .ok instr =>
        match execOne fops instrs fuel instr { s with pc := s.pc + 1 } with
        | .ok s => execRangeGo fops instrs fuel endPc s
        | r => r
    else .ok s

/-- `execute_range` (`execute.rs`): run `[start_pc, start_pc + len)` with the
caller's `pc` saved and restored. -/
def execRange (fops : FloatOps) (instrs : List Instruction) (fuel : Nat)
    (startPc : Nat) (len : Nat) (s : VMState) : VmRes VMState :=
  match fuel with
  | 0 => .timeout
  | fuel + 1 =>
    let savedPc := s.pc
    match execRangeGo fops instrs fuel (startPc + len) { s with pc := startPc } with
    | .ok s => .ok { s with pc := savedPc }
    | r => r

/-- The PRE-condition loop shared by `exec_call` and `exec_recurse`
(`execute.rs` lines 659-666): each span must leave `Bool(true)`. -/
def execPreConditions (fops : FloatOps) (instrs : List Instruction) :
    Nat → List (Nat × Nat) → VMState → VmRes VMState
  | 0, _, _ => .timeout
  | _ + 1, [], s => .ok s
  | fuel + 1, (preStart, preLen) :: rest, s =>
    match execRange fops instrs fuel preStart preLen s with
    | .ok s =>
      match vmPop s with
      | .error e => .err e
      | .ok (condition, s) =>
        match condition with
        | .Bool true => execPreConditions fops instrs fuel rest s
        | _ => .err (.PreconditionFailed (s.pc - 1))
    | r => r

/-- `exec_call` (`execute.rs` lines 629-682): pop the arguments (last pushed
becomes de Bruijn index 0), bind them, run the PRE spans, push a call frame,
jump to the body. -/
def execCall (fops : FloatOps) (instrs : List Instruction) (fuel : Nat)
    (instr : Instruction) (s : VMState) : VmRes VMState :=
  match fuel with
  | 0 => .timeout
  | fuel + 1 =>
    let funcIndex := instr.arg1
    match s.functions.get? funcIndex with
    | none => .err (.UnknownFunction (s.pc - 1) instr.arg1)
    | some funcInfo =>
      match vmPopN funcInfo.paramCount s with
      | .error e => .err e
      | .ok (args, s) =>
        let savedBindingDepth := s.bindings.length
        -- Rust pushes `args` reversed onto the Vec, so `args[0]` ends up
        -- most recent: under the head-is-recent convention that is
        -- `args ++ bindings`.
        let s := { s with bindings := args ++ s.bindings }
        match execPreConditions fops instrs fuel funcInfo.preConditions s with
        | .ok s =>
          let frame : CallFrame :=
            { returnPc := s.pc, savedBindingDepth,
              bodyStartPc := funcInfo.bodyStartPc, recursionDepth := 0,
              postConditions := funcInfo.postConditions, funcIndex }
          .ok { s with callStack := frame :: s.callStack, pc := funcInfo.bodyStartPc }
        | r => r

/-- `exec_recurse` (`execute.rs` lines 684-740): like `exec_call` against the
current frame's function, with the recursion depth incremented and checked
against the instruction's limit. -/
def execRecurse (fops : FloatOps) (instrs : List Instruction) (fuel : Nat)
    (instr : Instruction) (s : VMState) : VmRes VMState :=
  match fuel with
  | 0 => .timeout
  | fuel + 1 =>
    let depthLimit := instr.arg1
    match s.callStack.head? with
    | none => .err (.UnexpectedEndOfProgram (s.pc - 1))
    | some currentFrame =>
      let currentDepth := currentFrame.recursionDepth
      if currentDepth ≥ depthLimit then
        .err (.RecursionDepthExceeded (s.pc - 1) depthLimit)
      else
        let funcIndex := currentFrame.funcIndex
        -- the source indexes `self.functions[func_index]` directly; frames
        -- only ever hold indices of existing functions
        let funcInfo := s.functions.getD funcIndex
          { paramCount := 0, bodyStartPc := 0, preConditions := [], postConditions := [] }
        match vmPopN funcInfo.paramCount s with
        | .error e => .err e
        | .ok (args, s) =>
          let savedBindingDepth := s.bindings.length
          let s := { s with bindings := args ++ s.bindings }
          match execPreConditions fops instrs fuel funcInfo.preConditions s with
          | .ok s =>
            let frame : CallFrame :=
              { returnPc := s.pc, savedBindingDepth,
                bodyStartPc := funcInfo.bodyStartPc,
                recursionDepth := currentDepth + 1,
                postConditions := funcInfo.postConditions, funcIndex }
            .ok { s with callStack := frame :: s.callStack, pc := funcInfo.bodyStartPc }
          | r => r

/-- The POST-condition loop of `exec_ret` (`execute.rs` lines 753-762). -/
def execPostConditions (fops : FloatOps) (instrs : List Instruction) :
    Nat → List (Nat × Nat) → VMState → VmRes VMState
  | 0, _, _ => .timeout
  | _ + 1, [], s => .ok s
  | fuel + 1, (postStart, postLen) :: rest, s =>
    match execRange fops instrs fuel postStart postLen s with
    | .ok s =>
      match vmPop s with
      | .error e => .err e
      | .ok (condition, s) =>
        match condition with
        | .Bool true => execPostConditions fops instrs fuel rest s
        | _ => .err (.PostconditionFailed (s.pc - 1))
    | r => r

/-- `exec_ret` (`execute.rs` lines 742-774): pop the return value and frame,
run POST spans with the return value as the most recent binding, restore the
binding depth and `pc`, push the return value. -/
def execRet (fops : FloatOps) (instrs : List Instruction) (fuel : Nat)
    (s : VMState) : VmRes VMState :=
  match fuel with
  | 0 => .timeout
  | fuel + 1 =>
    match vmPop s with
    | .error e => .err e
    | .ok (returnValue, s) =>
      match s.callStack with
      | [] => .err (.UnexpectedEndOfProgram (s.pc - 1))
      | callFrame :: callRest =>
        let s := { s with callStack := callRest }
        let postRun : VmRes VMState :=
          if callFrame.postConditions ≠ [] then
            match execPostConditions fops instrs fuel callFrame.postConditions
                { s with bindings := returnValue :: s.bindings } with
            | .ok s => .ok { s with bindings := s.bindings.tail }
            | r => r
          else .ok s
        retFinish callFrame returnValue postRun

/-- `execute_one` (`execute.rs` lines 126-203): the single-instruction
dispatcher used inside PRE/POST spans. -/
def execOne (fops : FloatOps) (instrs : List Instruction) (fuel : Nat)
    (instr : Instruction) (s : VMState) : VmRes VMState :=
  match fuel with
  | 0 => .timeout
  | fuel + 1 =>
  match instr.opcode with
  | .Halt => .ok s
  | .Nop | .Hash | .Param | .EndFunc | .Exhaust => .ok s
  | .Const => liftE (execConst instr s)
  | .ConstExt => liftE (execConstExt fops instrs instr s)
  | .Bind => liftE (execBind s)
  | .Ref => liftE (execRef instr s)
  | .Drop => liftE (execDrop s)
  | .Add => liftE (execBinaryArith i64WrappingAdd u64WrappingAdd fops.fadd fops s)
  | .Sub => liftE (execBinaryArith i64WrappingSub u64WrappingSub fops.fsub fops s)
  | .Mul => liftE (execBinaryArith i64WrappingMul u64WrappingMul fops.fmul fops s)
  | .Div => liftE (execDiv fops s)
  | .Mod => liftE (execMod s)
  | .Neg => liftE (execNeg fops s)
  | .Eq => liftE (execComparison (· = ·) (· = ·) fops.feq s)
  | .Neq => liftE (execComparison (· ≠ ·) (· ≠ ·) fops.fne s)
  | .Lt => liftE (execComparison (· < ·) (· < ·) fops.flt s)
  | .Gt => liftE (execComparison (· > ·) (· > ·) fops.fgt s)
  | .Lte => liftE (execComparison (· ≤ ·) (· ≤ ·) fops.fle s)
  | .Gte => liftE (execComparison (· ≥ ·) (· ≥ ·) fops.fge s)
  | .And => liftE (execLogicAnd s)
  | .Or => liftE (execLogicOr s)
  | .Not => liftE (execLogicNot s)
  | .Xor => liftE (execLogicXor s)
  | .Shl => liftE (execShiftLeft s)
  | .Shr => liftE (execShiftRight s)
  | .Match => liftE (execMatch instrs instr s)
  | .Case => .ok { s with pc := s.pc + instr.arg2 }
  | .Func => .ok { s with pc := s.pc + instr.arg2 + 1 }
  | .Pre => .ok { s with pc := s.pc + instr.arg1 }
  | .Post => .ok { s with pc := s.pc + instr.arg1 }
  | .Call => execCall fops instrs fuel instr s
  | .Recurse => execRecurse fops instrs fuel instr s
  | .Ret => execRet fops instrs fuel s
  | .VariantNew => liftE (execVariantNew instr s)
  | .TupleNew => liftE (execTupleNew instr s)
  | .Project => liftE (execProject instr s)
  | .ArrayNew => liftE (execArrayNew instr s)
  | .ArrayGet => liftE (execArrayGet s)
  | .ArrayLen => liftE (execArrayLen s)
  | .Assert => liftE (execAssert s)
  | .Typeof => liftE (execTypeof instr s)

/-- The main dispatch loop of `VM::execute` (`execute.rs` lines 13-122):
handle a finished CASE body, otherwise fetch, advance and dispatch. -/
def runLoop (fops : FloatOps) (instrs : List Instruction) :
    Nat → VMState → VmRes Value
  | 0, _ => .timeout
  | fuel + 1, s =>
    match s.caseContexts with
    | (bodyEndPc, afterExhaustPc) :: caseRest =>
      if s.pc ≥ bodyEndPc then
        runLoop fops instrs fuel
          { s with caseContexts := caseRest, pc := afterExhaustPc }
      else
        runStep fops instrs fuel s
    | [] => runStep fops instrs fuel s

/-- One fetch-advance-dispatch iteration of the `VM::execute` loop (the
`match instr.opcode` of `execute.rs` lines 26-121). -/
def runStep (fops : FloatOps) (instrs : List Instruction) (fuel : Nat)
    (s : VMState) : VmRes Value :=
  match fuel with
  | 0 => .timeout
  | fuel + 1 =>
  match vmFetch instrs s with
  | .error e => .err e
  | .ok instr =>
    let s := { s with pc := s.pc + 1 }
    match instr.opcode with
    | .Halt => liftE (execHalt s)
    | .Nop => runLoop fops instrs fuel s
    | .Const => runNext fops instrs fuel (liftE (execConst instr s))
    | .ConstExt => runNext fops instrs fuel (liftE (execConstExt fops instrs instr s))
    | .Bind => runNext fops instrs fuel (liftE (execBind s))
    | .Ref => runNext fops instrs fuel (liftE (execRef instr s))
    | .Drop => runNext fops instrs fuel (liftE (execDrop s))
    | .Add =>
      runNext fops instrs fuel
        (liftE (execBinaryArith i64WrappingAdd u64WrappingAdd fops.fadd fops s))
    | .Sub =>
      runNext fops instrs fuel
        (liftE (execBinaryArith i64WrappingSub u64WrappingSub fops.fsub fops s))
    | .Mul =>
      runNext fops instrs fuel
        (liftE (execBinaryArith i64WrappingMul u64WrappingMul fops.fmul fops s))
    | .Div => runNext fops instrs fuel (liftE (execDiv fops s))
    | .Mod => runNext fops instrs fuel (liftE (execMod s))
    | .Neg => runNext fops instrs fuel (liftE (execNeg fops s))
    | .Eq => runNext fops instrs fuel (liftE (execComparison (· = ·) (· = ·) fops.feq s))
    | .Neq => runNext fops instrs fuel (liftE (execComparison (· ≠ ·) (· ≠ ·) fops.fne s))
    | .Lt => runNext fops instrs fuel (liftE (execComparison (· < ·) (· < ·) fops.flt s))
    | .Gt => runNext fops instrs fuel (liftE (execComparison (· > ·) (· > ·) fops.fgt s))
    | .Lte => runNext fops instrs fuel (liftE (execComparison (· ≤ ·) (· ≤ ·) fops.fle s))
    | .Gte => runNext fops instrs fuel (liftE (execComparison (· ≥ ·) (· ≥ ·) fops.fge s))
    | .And => runNext fops instrs fuel (liftE (execLogicAnd s))
    | .Or => runNext fops instrs fuel (liftE (execLogicOr s))
    | .Not => runNext fops instrs fuel (liftE (execLogicNot s))
    | .Xor => runNext fops instrs fuel (liftE (execLogicXor s))
    | .Shl => runNext fops instrs fuel (liftE (execShiftLeft s))
    | .Shr => runNext fops instrs fuel (liftE (execShiftRight s))
    | .Match => runNext fops instrs fuel (liftE (execMatch instrs instr s))
    | .Case =>
      -- CASE met outside a MATCH dispatch: skip its body
      runLoop fops instrs fuel { s with pc := s.pc + instr.arg2 }
    | .Exhaust => runLoop fops instrs fuel s
    | .Func =>
      -- skip the function body during linear execution
      runLoop fops instrs fuel { s with pc := s.pc + instr.arg2 + 1 }
    | .EndFunc => runLoop fops instrs fuel s
    | .Pre => runLoop fops instrs fuel { s with pc := s.pc + instr.arg1 }
    | .Post => runLoop fops instrs fuel { s with pc := s.pc + instr.arg1 }
    | .Call => runNext fops instrs fuel (execCall fops instrs fuel instr s)
    | .Recurse => runNext fops instrs fuel (execRecurse fops instrs fuel instr s)
    | .Ret => runNext fops instrs fuel (execRet fops instrs fuel s)
    | .VariantNew => runNext fops instrs fuel (liftE (execVariantNew instr s))
    | .TupleNew => runNext fops instrs fuel (liftE (execTupleNew instr s))
    | .Project => runNext fops instrs fuel (liftE (execProject instr s))
    | .ArrayNew => runNext fops instrs fuel (liftE (execArrayNew instr s))
    | .ArrayGet => runNext fops instrs fuel (liftE (execArrayGet s))
    | .ArrayLen => runNext fops instrs fuel (liftE (execArrayLen s))
    | .Param => runLoop fops instrs fuel s
    | .Hash => runLoop fops instrs fuel s
    | .Assert => runNext fops instrs fuel (liftE (execAssert s))
    | .Typeof => runNext fops instrs fuel (liftE (execTypeof instr s))

/-- Continue the main loop after a `?`-style step (error propagation of the
Rust `self.exec_...(...)?`). -/
def runNext (fops : FloatOps) (instrs : List Instruction) :
    Nat → VmRes VMState → VmRes Value
  | 0, _ => .timeout
  | fuel + 1, .ok s => runLoop fops instrs fuel s
  | _ + 1, .err e => .err e
  | _ + 1, .timeout => .timeout

end

/-- `VM::new` (`machine.rs`): the initial state for a program. -/
def vmNew : VMState :=
  { stack := [], bindings := [], callStack := [], pc := 0,
    functions := [], caseContexts := [] }

/-- `VM::execute` / `run` (`execute.rs` lines 8-11, `lib.rs`): pre-scan the
function table, jump to the entry point, run the dispatch loop (fueled). -/
def execute (fops : FloatOps) (fuel : Nat) (p : Program) : VmRes Value :=
  let instrs := p.instructions
  let s := { vmNew with
    functions := scanFunctions instrs,
    pc := findEntryPoint instrs }
  runLoop fops instrs fuel s

/-! ## Concrete programs used by the theorems -/

/-- The two-error program of the spec's scenario 8: a single `REF 5000`
(index beyond the limit) and no trailing HALT. -/
def progRefNoHalt : Program :=
  Program.new [Instruction.new .Ref .None 5000 0 0]

/-- The division-by-zero program of the spec's scenario 6:
`[CONST I64 0 1; CONST I64 0 0; DIV; HALT]`. -/
def progDivZero : Program :=
  Program.new
    [Instruction.new .Const .I64 0 1 0,
     Instruction.new .Const .I64 0 0 0,
     Instruction.new .Div .None 0 0 0,
     Instruction.new .Halt .None 0 0 0]

/-- The selector-tag extraction of `exec_match` (`execute.rs` lines
561-576): Bool maps to tag 0/1, a Variant to its own tag, anything else has
no tag (and `exec_match` errors). -/
def selectorTag : Value → Option Nat
  | .Bool b => some (if b then 1 else 0)
  | .Variant _ tag _ => some tag
  | _ => none

/-- Statement apparatus: the positions of the `count` CASE entries that
`exec_match` scans from `scan` (entry `k + 1` follows entry `k` after
`1 + body_len`). -/
def casePositions (instrs : List Instruction) : Nat → Nat → List Nat
  | 0, _ => []
  | n + 1, scan =>
    scan :: casePositions instrs n (scan + 1 + (getI instrs scan).arg2)

/-- Statement apparatus: the scan position after those `count` CASE entries
(where `exec_match` expects EXHAUST). -/
def caseScanEnd (instrs : List Instruction) : Nat → Nat → Nat
  | 0, scan => scan
  | n + 1, scan => caseScanEnd instrs n (scan + 1 + (getI instrs scan).arg2)

/-- A structurally clean program whose single function declares one PARAM:
`FUNC 1 6; PARAM I64; PRE 1; CONST Bool 1; REF 0; RET; HASH; ENDFUNC;
CONST I64 42; CALL 0; HALT`.  The structural pass skips the PARAM before
collecting the PRE block; the VM pre-scan stops at it. -/
def pC1 : List Instruction :=
  [Instruction.new .Func .None 1 6 0,
   Instruction.new .Param .I64 0 0 0,
   Instruction.new .Pre .None 1 0 0,
   Instruction.new .Const .Bool 1 0 0,
   Instruction.new .Ref .None 0 0 0,
   Instruction.new .Ret .None 0 0 0,
   Instruction.new .Hash .None 0 0 0,
   Instruction.new .EndFunc .None 0 0 0,
   Instruction.new .Const .I64 0 42 0,
   Instruction.new .Call .None 0 0 0,
   Instruction.new .Halt .None 0 0 0]

/-- A structurally clean program with a FUNC opcode inside a MATCH case
body: `MATCH 1; CASE 0 1; FUNC 0 100; EXHAUST; FUNC 0 1; RET; ENDFUNC;
HALT`.  The structural pass jumps the MATCH block to `EXHAUST + 1` and
records only the function at 4; `scan_functions` walks the case body
linearly, mistakes the FUNC at 2 for a function and then skips
`1 + body_len + 1 = 102` positions, past the real block at 4. -/
def pMatchFunc : List Instruction :=
  [Instruction.new .Match .None 1 0 0,
   Instruction.new .Case .None 0 1 0,
   Instruction.new .Func .None 0 100 0,
   Instruction.new .Exhaust .None 0 0 0,
   Instruction.new .Func .None 0 1 0,
   Instruction.new .Ret .None 0 0 0,
   Instruction.new .EndFunc .None 0 0 0,
   Instruction.new .Halt .None 0 0 0]

/-- A parameterless function with one PRE and one POST block:
`FUNC 0 6; PRE 1; CONST Bool 1; POST 1; CONST Bool 1; CONST I64 7; RET;
ENDFUNC; HALT`. -/
def pOK : List Instruction :=
  [Instruction.new .Func .None 0 6 0,
   Instruction.new .Pre .None 1 0 0,
   Instruction.new .Const .Bool 1 0 0,
   Instruction.new .Post .None 1 0 0,
   Instruction.new .Const .Bool 1 0 0,
   Instruction.new .Const .I64 0 7 0,
   Instruction.new .Ret .None 0 0 0,
   Instruction.new .EndFunc .None 0 0 0,
   Instruction.new .Halt .None 0 0 0]

/-! ## Theorems -/

theorem exceptBind_ok {ε α β : Type} {x : Except ε α} {f : α → Except ε β}
    {b : β} (h : x >>= f = .ok b) : ∃ a, x = .ok a ∧ f a = .ok b := by
  cases x with
  | error e => exact absurd h (by intro hc; cases hc)
  | ok a => exact ⟨a, rfl, h⟩

theorem liftE_ok {α : Type} {x : Except RuntimeError α} {a : α}
    (h : liftE x = .ok a) : x = .ok a := by
  cases x with
  | error e => cases h
  | ok b => cases h; rfl

theorem ok_bind {ε α β : Type} (a : α) (f : α → Except ε β) :
    (Except.ok a >>= f) = f a := rfl

theorem error_bind {ε α β : Type} (e : ε) (f : α → Except ε β) :
    ((Except.error e : Except ε α) >>= f) = Except.error e := rfl

theorem opcode_tryFrom_toByte (op : Opcode) : Opcode.tryFrom op.toByte = .ok op := by
  cases op <;> rfl

theorem typeTag_tryFrom_toByte (t : TypeTag) : TypeTag.tryFrom t.toByte = .ok t := by
  cases t <;> rfl

theorem instr_decode_encode (i : Instruction) :
    Instruction.decode i.encode = .ok i := by
  obtain ⟨op, tt, a1, a2, a3⟩ := i
  simp only [Instruction.encode, Instruction.decode, opcode_tryFrom_toByte,
    typeTag_tryFrom_toByte, Nat.mod_add_div]
  rfl

theorem decodeChunks_encode (l : List Instruction) :
    decodeChunks (l.map Instruction.encode).flatten = .ok l := by
  induction l with
  | nil => rfl
  | cons i rest ih =>
    have hi := instr_decode_encode i
    obtain ⟨op, tt, a1, a2, a3⟩ := i
    have hsplit :
        (List.map Instruction.encode
          ({ opcode := op, typeTag := tt, arg1 := a1, arg2 := a2, arg3 := a3 }
            :: rest)).flatten
        = op.toByte :: tt.toByte :: a1 % 256 :: a1 / 256 :: a2 % 256 :: a2 / 256
          :: a3 % 256 :: a3 / 256
          :: (List.map Instruction.encode rest).flatten := rfl
    rw [hsplit]
    simp only [decodeChunks]
    simp only [Instruction.encode] at hi
    rw [hi, ih]
    rfl

theorem program_encode_length (p : Program) : p.encode.length % 8 = 0 := by
  suffices h : ∀ l : List Instruction,
      ((l.map Instruction.encode).flatten).length = 8 * l.length by
    simp [Program.encode, h, Nat.mul_mod_right]
  intro l
  induction l with
  | nil => rfl
  | cons i rest ih => simp [Instruction.encode, ih, Nat.mul_succ]

/-- C2.  Encoding then decoding is the identity, both per instruction
(`Instruction::decode (Instruction::encode i) = Ok i`) and per program
(`Program::decode (Program::encode p) = Ok p`). -/
theorem encode_then_decode_is_identity :
    (∀ i : Instruction, Instruction.decode i.encode = .ok i) ∧
    (∀ p : Program, Program.decode p.encode = .ok p) := by
  refine ⟨instr_decode_encode, fun p => ?_⟩
  have hlen := program_encode_length p
  simp only [Program.decode, hlen, ne_eq, not_true_eq_false, if_false,
    reduceIte]
  rw [show p.encode = ((p.instructions.map Instruction.encode).flatten) from rfl,
    decodeChunks_encode]
  rfl

/-- C3.  `const_value` projection: for a CONST instruction with composite
`v = (arg1 << 16) | arg2`, tag I64 gives `v` sign-extended, U64 gives `v`
zero-extended, Bool gives `arg1 ≠ 0`, Char gives the codepoint `arg1` except
that surrogates give `None`, Unit gives `Unit`, every other tag gives `None`;
for a non-CONST opcode the projection is always `None`. -/
theorem const_value_projection (i : Instruction) (hwf : i.wf) :
    (i.opcode ≠ Opcode.Const → i.constValue = none) ∧
    (i.opcode = Opcode.Const →
      (i.typeTag = TypeTag.I64 →
        i.constValue = some (.I64 (signExtend32 (i.arg1 * 2 ^ 16 + i.arg2)))) ∧
      (i.typeTag = TypeTag.U64 →
        i.constValue = some (.U64 (i.arg1 * 2 ^ 16 + i.arg2))) ∧
      (i.typeTag = TypeTag.Bool →
        i.constValue = some (.Bool (decide (i.arg1 ≠ 0)))) ∧
      (i.typeTag = TypeTag.Char →
        ((0xD800 ≤ i.arg1 ∧ i.arg1 ≤ 0xDFFF) → i.constValue = none) ∧
        (¬(0xD800 ≤ i.arg1 ∧ i.arg1 ≤ 0xDFFF) →
          i.constValue = some (.Char i.arg1))) ∧
      (i.typeTag = TypeTag.Unit → i.constValue = some .Unit) ∧
      (i.typeTag ≠ TypeTag.I64 → i.typeTag ≠ TypeTag.U64 →
        i.typeTag ≠ TypeTag.Bool → i.typeTag ≠ TypeTag.Char →
        i.typeTag ≠ TypeTag.Unit → i.constValue = none)) := by
  obtain ⟨hw1, hw2, hw3⟩ := hwf
  constructor
  · intro hop
    simp [Instruction.constValue, hop]
  · intro hop
    refine ⟨?_, ?_, ?_, ?_, ?_, ?_⟩
    · intro htt; simp [Instruction.constValue, hop, htt]
    · intro htt; simp [Instruction.constValue, hop, htt]
    · intro htt; simp [Instruction.constValue, hop, htt]
    · intro htt
      constructor
      · intro hsurr
        simp only [Instruction.constValue, hop, htt]
        have hch : charFromU32 i.arg1 = none := by
          unfold charFromU32
          rw [if_neg]
          rintro ⟨_, hns⟩; exact hns hsurr
        simp [hch]
      · intro hns
        simp only [Instruction.constValue, hop, htt]
        have hch : charFromU32 i.arg1 = some i.arg1 := by
          unfold charFromU32
          rw [if_pos ⟨by omega, hns⟩]
        simp [hch]
    · intro htt; simp [Instruction.constValue, hop, htt]
    · intro h1 h2 h3 h4 h5
      cases htt : i.typeTag <;>
        simp_all [Instruction.constValue, hop]

/-- Closed instances of `const_value_projection` at concrete instructions
(the surrogate `0xD800` is rejected; `I64 42` round-trips). -/
theorem const_value_projection_witness :
    Instruction.constValue (Instruction.new .Const .Char 0xD800 0 0) = none ∧
    Instruction.constValue (Instruction.new .Const .I64 0 42 0)
      = some (.I64 (signExtend32 (0 * 2 ^ 16 + 42))) := by
  constructor
  · exact (((const_value_projection (Instruction.new .Const .Char 0xD800 0 0)
      (by decide)).2 rfl).2.2.2.1 rfl).1 (by decide)
  · exact ((const_value_projection (Instruction.new .Const .I64 0 42 0)
      (by decide)).2 rfl).1 rfl

theorem checkLimitsGo_no_programTooLarge :
    ∀ (l : List Instruction) (i n : Nat),
      VerifyError.ProgramTooLarge n ∉ checkLimitsGo i l := by
  intro l
  induction l with
  | nil => intro i n h; simp [checkLimitsGo] at h
  | cons instr rest ih =>
    intro i n h
    simp only [checkLimitsGo, List.mem_append] at h
    rcases h with h | h
    · cases hop : instr.opcode <;> simp [hop] at h
    · exact ih (i + 1) n h

theorem checkLimitsGo_refTooDeep_gt :
    ∀ (l : List Instruction) (i k idx : Nat),
      VerifyError.RefTooDeep k idx ∈ checkLimitsGo i l → idx > 4096 := by
  intro l
  induction l with
  | nil => intro i k idx h; simp [checkLimitsGo] at h
  | cons instr rest ih =>
    intro i k idx h
    simp only [checkLimitsGo, List.mem_append] at h
    rcases h with h | h
    · cases hop : instr.opcode <;> simp [hop, MAX_REF_INDEX] at h <;> omega
    · exact ih (i + 1) k idx h

theorem checkLimitsGo_recursion_gt :
    ∀ (l : List Instruction) (i k lim : Nat),
      VerifyError.RecursionLimitTooHigh k lim ∈ checkLimitsGo i l → lim > 1024 := by
  intro l
  induction l with
  | nil => intro i k lim h; simp [checkLimitsGo] at h
  | cons instr rest ih =>
    intro i k lim h
    simp only [checkLimitsGo, List.mem_append] at h
    rcases h with h | h
    · cases hop : instr.opcode <;> simp [hop, MAX_RECURSION_LIMIT] at h <;> omega
    · exact ih (i + 1) k lim h

theorem checkLimitsGo_mem_of_get :
    ∀ (l : List Instruction) (i pc : Nat) (instr : Instruction),
      l.get? pc = some instr →
      (instr.opcode = Opcode.Ref → instr.arg1 > 4096 →
        VerifyError.RefTooDeep (i + pc) instr.arg1 ∈ checkLimitsGo i l) ∧
      (instr.opcode = Opcode.Recurse → instr.arg1 > 1024 →
        VerifyError.RecursionLimitTooHigh (i + pc) instr.arg1 ∈ checkLimitsGo i l) := by
  intro l
  induction l with
  | nil => intro i pc instr h; simp at h
  | cons head rest ih =>
    intro i pc instr h
    cases pc with
    | zero =>
      simp only [List.get?_cons_zero, Option.some_inj] at h
      subst h
      constructor
      · intro hop harg
        simp [checkLimitsGo, hop, MAX_REF_INDEX, harg]
      · intro hop harg
        simp [checkLimitsGo, hop, MAX_RECURSION_LIMIT, harg]
    | succ pc' =>
      simp only [List.get?_cons_succ] at h
      have := ih (i + 1) pc' instr h
      constructor
      · intro hop harg
        simp only [checkLimitsGo, List.mem_append]
        right
        have := this.1 hop harg
        simpa [Nat.add_assoc, Nat.add_comm 1 pc'] using this
      · intro hop harg
        simp only [checkLimitsGo, List.mem_append]
        right
        have := this.2 hop harg
        simpa [Nat.add_assoc, Nat.add_comm 1 pc'] using this

/-- C5.  The limits pass accepts exactly the stated boundaries: no
`ProgramTooLarge` at 65,536 instructions but `ProgramTooLarge` at 65,537;
no `RefTooDeep` for REF index 4,096 but `RefTooDeep` for 4,097; no
`RecursionLimitTooHigh` for RECURSE limit 1,024 but `RecursionLimitTooHigh`
for 1,025. -/
theorem limits_boundaries :
    (∀ instrs : List Instruction, instrs.length = 65536 →
      ∀ n, VerifyError.ProgramTooLarge n ∉ checkLimits instrs) ∧
    (∀ instrs : List Instruction, instrs.length = 65537 →
      VerifyError.ProgramTooLarge 65537 ∈ checkLimits instrs) ∧
    (∀ (instrs : List Instruction) (k : Nat),
      VerifyError.RefTooDeep k 4096 ∉ checkLimits instrs) ∧
    (∀ (instrs : List Instruction) (pc : Nat) (instr : Instruction),
      instrs.get? pc = some instr → instr.opcode = Opcode.Ref →
      instr.arg1 = 4097 → VerifyError.RefTooDeep pc 4097 ∈ checkLimits instrs) ∧
    (∀ (instrs : List Instruction) (k : Nat),
      VerifyError.RecursionLimitTooHigh k 1024 ∉ checkLimits instrs) ∧
    (∀ (instrs : List Instruction) (pc : Nat) (instr : Instruction),
      instrs.get? pc = some instr → instr.opcode = Opcode.Recurse →
      instr.arg1 = 1025 →
      VerifyError.RecursionLimitTooHigh pc 1025 ∈ checkLimits instrs) := by
  refine ⟨?_, ?_, ?_, ?_, ?_, ?_⟩
  · intro instrs hlen n h
    simp only [checkLimits, hlen, MAX_PROGRAM_SIZE] at h
    norm_num at h
    exact checkLimitsGo_no_programTooLarge instrs 0 n h
  · intro instrs hlen
    simp [checkLimits, hlen, MAX_PROGRAM_SIZE]
  · intro instrs k h
    simp only [checkLimits, List.mem_append] at h
    rcases h with h | h
    · split at h <;> simp_all
    · exact absurd (checkLimitsGo_refTooDeep_gt instrs 0 k 4096 h) (by omega)
  · intro instrs pc instr hget hop harg
    have := (checkLimitsGo_mem_of_get instrs 0 pc instr hget).1 hop (by omega)
    simp only [checkLimits, List.mem_append]
    right
    simpa [harg] using this
  · intro instrs k h
    simp only [checkLimits, List.mem_append] at h
    rcases h with h | h
    · split at h <;> simp_all
    · exact absurd (checkLimitsGo_recursion_gt instrs 0 k 1024 h) (by omega)
  · intro instrs pc instr hget hop harg
    have := (checkLimitsGo_mem_of_get instrs 0 pc instr hget).2 hop (by omega)
    simp only [checkLimits, List.mem_append]
    right
    simpa [harg] using this

/-- Closed instances of `limits_boundaries`: the four small boundary
programs (REF 4096 / 4097, RECURSE 1024 / 1025). -/
theorem limits_boundaries_witness :
    VerifyError.RefTooDeep 0 4096
        ∉ checkLimits [Instruction.new .Ref .None 4096 0 0] ∧
    VerifyError.RefTooDeep 0 4097
        ∈ checkLimits [Instruction.new .Ref .None 4097 0 0] ∧
    VerifyError.RecursionLimitTooHigh 0 1024
        ∉ checkLimits [Instruction.new .Recurse .None 1024 0 0] ∧
    VerifyError.RecursionLimitTooHigh 0 1025
        ∈ checkLimits [Instruction.new .Recurse .None 1025 0 0] := by
  refine ⟨?_, ?_, ?_, ?_⟩
  · exact limits_boundaries.2.2.1 _ 0
  · exact limits_boundaries.2.2.2.1 _ 0 _ rfl rfl rfl
  · exact limits_boundaries.2.2.2.2.1 _ 0
  · exact limits_boundaries.2.2.2.2.2 _ 0 _ rfl rfl rfl

/-- C7.  `exec_halt` is decided solely by the operand stack depth: depth 0
gives `HaltWithEmptyStack`, depth 1 returns the sole value, depth above 1
gives `HaltWithMultipleValues` with the exact count. -/
theorem halt_by_stack_depth (s : VMState) :
    (s.stack.length = 0 → execHalt s = .error .HaltWithEmptyStack) ∧
    (∀ v, s.stack = [v] → execHalt s = .ok v) ∧
    (s.stack.length > 1 →
      execHalt s = .error (.HaltWithMultipleValues s.stack.length)) := by
  refine ⟨?_, ?_, ?_⟩
  · intro h
    have : s.stack = [] := List.length_eq_zero.mp h
    simp [execHalt, this]
  · intro v h
    simp [execHalt, h]
  · intro h
    match hs : s.stack with
    | [] => rw [hs] at h; simp at h
    | [v] => rw [hs] at h; simp at h
    | a :: b :: rest => simp [execHalt, hs]

/-- Closed instances of `halt_by_stack_depth` at depths 0, 1 and 2. -/
theorem halt_by_stack_depth_witness :
    execHalt vmNew = .error .HaltWithEmptyStack ∧
    execHalt { vmNew with stack := [.I64 7] } = .ok (.I64 7) ∧
    execHalt { vmNew with stack := [.I64 1, .I64 2] }
      = .error (.HaltWithMultipleValues 2) := by
  refine ⟨?_, ?_, ?_⟩
  · exact (halt_by_stack_depth vmNew).1 rfl
  · exact (halt_by_stack_depth _).2.1 (.I64 7) rfl
  · exact (halt_by_stack_depth { vmNew with stack := [.I64 1, .I64 2] }).2.2
      (by decide)

/-- C6.  `verify` returns `Ok` exactly when the collected error list of all
passes is empty, and it collects errors from independent passes: for the
program `[REF 5000]` with no HALT the returned list contains both
`RefTooDeep` and `MissingHalt` (whatever the digest function is). -/
theorem verify_collects_all_passes :
    (∀ (blake3 : List Nat → List Nat) (p : Program),
      verify blake3 p = .ok () ↔ verifyErrors blake3 p = []) ∧
    (∀ blake3 : List Nat → List Nat,
      verify blake3 progRefNoHalt = .error (verifyErrors blake3 progRefNoHalt) ∧
      VerifyError.RefTooDeep 0 5000 ∈ verifyErrors blake3 progRefNoHalt ∧
      VerifyError.MissingHalt ∈ verifyErrors blake3 progRefNoHalt) := by
  have hok : ∀ (b : List Nat → List Nat) (p : Program),
      verify b p = .ok () ↔ verifyErrors b p = [] := by
    intro b p
    unfold verify
    by_cases h : verifyErrors b p = []
    · simp [h]
    · have hne : (verifyErrors b p).isEmpty = false := by
        simpa [List.isEmpty_iff] using h
      simp [hne, h]
  refine ⟨hok, fun b => ?_⟩
  have hev : verifyErrors b progRefNoHalt
      = [.RefTooDeep 0 5000, .MissingHalt, .UnresolvableRef 0 5000 0] := rfl
  refine ⟨?_, ?_, ?_⟩
  · unfold verify
    rw [hev]
    rfl
  · rw [hev]; simp
  · rw [hev]; simp

theorem toBits64_cast (z : Int) : ((toBits64 z : Nat) : Int) = z % 2 ^ 64 := by
  unfold toBits64
  exact Int.toNat_of_nonneg (Int.emod_nonneg z (by norm_num))

theorem fromBits64_spec (n : Nat) :
    fromBits64 n % (2 ^ 64 : Int) = (n : Int) % 2 ^ 64 ∧
    -(2 ^ 63) ≤ fromBits64 n ∧ fromBits64 n < 2 ^ 63 := by
  have hm : n % 2 ^ 64 < 2 ^ 64 := Nat.mod_lt _ (by norm_num)
  have hcast : ((n % 2 ^ 64 : Nat) : Int) = (n : Int) % 2 ^ 64 := by push_cast; rfl
  unfold fromBits64
  split <;> refine ⟨?_, ?_, ?_⟩ <;> omega

theorem i64WrappingAdd_spec (x y : Int) :
    i64WrappingAdd x y % (2 ^ 64 : Int) = (x + y) % 2 ^ 64 ∧
    -(2 ^ 63) ≤ i64WrappingAdd x y ∧ i64WrappingAdd x y < 2 ^ 63 := by
  obtain ⟨h1, h2, h3⟩ := fromBits64_spec (toBits64 x + toBits64 y)
  refine ⟨?_, h2, h3⟩
  unfold i64WrappingAdd
  rw [h1]
  have ha := toBits64_cast x
  have hb := toBits64_cast y
  omega

theorem i64WrappingSub_spec (x y : Int) :
    i64WrappingSub x y % (2 ^ 64 : Int) = (x - y) % 2 ^ 64 ∧
    -(2 ^ 63) ≤ i64WrappingSub x y ∧ i64WrappingSub x y < 2 ^ 63 := by
  obtain ⟨h1, h2, h3⟩ := fromBits64_spec (toBits64 x + (2 ^ 64 - toBits64 y))
  refine ⟨?_, h2, h3⟩
  unfold i64WrappingSub
  rw [h1]
  have ha := toBits64_cast x
  have hb := toBits64_cast y
  omega

theorem i64WrappingMul_spec (x y : Int) :
    i64WrappingMul x y % (2 ^ 64 : Int) = (x * y) % 2 ^ 64 ∧
    -(2 ^ 63) ≤ i64WrappingMul x y ∧ i64WrappingMul x y < 2 ^ 63 := by
  obtain ⟨h1, h2, h3⟩ := fromBits64_spec (toBits64 x * toBits64 y)
  refine ⟨?_, h2, h3⟩
  unfold i64WrappingMul
  rw [h1]
  push_cast
  rw [toBits64_cast, toBits64_cast]
  exact (Int.mul_emod x y _).symm

theorem u64WrappingSub_spec (x y : Nat) :
    ((u64WrappingSub x y : Nat) : Int) % 2 ^ 64 = ((x : Int) - y) % 2 ^ 64 ∧
    u64WrappingSub x y < 2 ^ 64 := by
  unfold u64WrappingSub
  have hy : y % 2 ^ 64 ≤ 2 ^ 64 := le_of_lt (Nat.mod_lt _ (by norm_num))
  constructor
  · push_cast [hy]
    omega
  · exact Nat.mod_lt _ (by norm_num)

theorem execBinaryArith_i64 (i64op : Int → Int → Int) (u64op : Nat → Nat → Nat)
    (f64op : Nat → Nat → Nat) (fops : FloatOps) (s : VMState) (x y : Int)
    (rest : List Value) (hstack : s.stack = .I64 y :: .I64 x :: rest)
    (hrest : rest.length < MAX_STACK_DEPTH) :
    execBinaryArith i64op u64op f64op fops s
      = .ok { s with stack := .I64 (i64op x y) :: rest } := by
  obtain ⟨st, bi, cs, pc, fns, cc⟩ := s
  simp only at hstack
  subst hstack
  simp [execBinaryArith, vmPop, vmPush, ok_bind, Nat.not_le.mpr hrest]

theorem execBinaryArith_u64 (i64op : Int → Int → Int) (u64op : Nat → Nat → Nat)
    (f64op : Nat → Nat → Nat) (fops : FloatOps) (s : VMState) (x y : Nat)
    (rest : List Value) (hstack : s.stack = .U64 y :: .U64 x :: rest)
    (hrest : rest.length < MAX_STACK_DEPTH) :
    execBinaryArith i64op u64op f64op fops s
      = .ok { s with stack := .U64 (u64op x y) :: rest } := by
  obtain ⟨st, bi, cs, pc, fns, cc⟩ := s
  simp only at hstack
  subst hstack
  simp [execBinaryArith, vmPop, vmPush, ok_bind, Nat.not_le.mpr hrest]

/-- C9.  Same-type integer ADD / SUB / MUL use wrapping (mod `2 ^ 64`)
arithmetic; DIV and MOD with a zero divisor return `DivisionByZero`; the
program `[CONST I64 0 1; CONST I64 0 0; DIV; HALT]` verifies and then fails
at runtime with `DivisionByZero` (at instruction 2). -/
theorem integer_wrapping_and_division_by_zero :
    (∀ (fops : FloatOps) (s : VMState) (x y : Int) (rest : List Value),
      s.stack = .I64 y :: .I64 x :: rest → rest.length < MAX_STACK_DEPTH →
      execBinaryArith i64WrappingAdd u64WrappingAdd fops.fadd fops s
          = .ok { s with stack := .I64 (i64WrappingAdd x y) :: rest } ∧
        i64WrappingAdd x y % (2 ^ 64 : Int) = (x + y) % 2 ^ 64 ∧
        -(2 ^ 63) ≤ i64WrappingAdd x y ∧ i64WrappingAdd x y < 2 ^ 63) ∧
    (∀ (fops : FloatOps) (s : VMState) (x y : Int) (rest : List Value),
      s.stack = .I64 y :: .I64 x :: rest → rest.length < MAX_STACK_DEPTH →
      execBinaryArith i64WrappingSub u64WrappingSub fops.fsub fops s
          = .ok { s with stack := .I64 (i64WrappingSub x y) :: rest } ∧
        i64WrappingSub x y % (2 ^ 64 : Int) = (x - y) % 2 ^ 64 ∧
        -(2 ^ 63) ≤ i64WrappingSub x y ∧ i64WrappingSub x y < 2 ^ 63) ∧
    (∀ (fops : FloatOps) (s : VMState) (x y : Int) (rest : List Value),
      s.stack = .I64 y :: .I64 x :: rest → rest.length < MAX_STACK_DEPTH →
      execBinaryArith i64WrappingMul u64WrappingMul fops.fmul fops s
          = .ok { s with stack := .I64 (i64WrappingMul x y) :: rest } ∧
        i64WrappingMul x y % (2 ^ 64 : Int) = (x * y) % 2 ^ 64 ∧
        -(2 ^ 63) ≤ i64WrappingMul x y ∧ i64WrappingMul x y < 2 ^ 63) ∧
    (∀ (fops : FloatOps) (s : VMState) (x y : Nat) (rest : List Value),
      s.stack = .U64 y :: .U64 x :: rest → rest.length < MAX_STACK_DEPTH →
      execBinaryArith i64WrappingAdd u64WrappingAdd fops.fadd fops s
          = .ok { s with stack := .U64 ((x + y) % 2 ^ 64) :: rest } ∧
        execBinaryArith i64WrappingMul u64WrappingMul fops.fmul fops s
          = .ok { s with stack := .U64 ((x * y) % 2 ^ 64) :: rest } ∧
        execBinaryArith i64WrappingSub u64WrappingSub fops.fsub fops s
          = .ok { s with stack := .U64 (u64WrappingSub x y) :: rest } ∧
        ((u64WrappingSub x y : Nat) : Int) % 2 ^ 64 = ((x : Int) - y) % 2 ^ 64) ∧
    (∀ (fops : FloatOps) (s : VMState) (x : Int) (rest : List Value),
      s.stack = .I64 0 :: .I64 x :: rest →
      execDiv fops s = .error (.DivisionByZero (s.pc - 1)) ∧
      execMod s = .error (.DivisionByZero (s.pc - 1))) ∧
    (∀ (fops : FloatOps) (s : VMState) (x : Nat) (rest : List Value),
      s.stack = .U64 0 :: .U64 x :: rest →
      execDiv fops s = .error (.DivisionByZero (s.pc - 1)) ∧
      execMod s = .error (.DivisionByZero (s.pc - 1))) ∧
    (∀ blake3 : List Nat → List Nat, verify blake3 progDivZero = .ok ()) ∧
    (∀ (fops : FloatOps) (f : Nat),
      execute fops (f + 9) progDivZero = .err (.DivisionByZero 2)) := by
  refine ⟨?_, ?_, ?_, ?_, ?_, ?_, ?_, ?_⟩
  · intro fops s x y rest hstack hrest
    exact ⟨execBinaryArith_i64 _ _ _ fops s x y rest hstack hrest,
      i64WrappingAdd_spec x y⟩
  · intro fops s x y rest hstack hrest
    exact ⟨execBinaryArith_i64 _ _ _ fops s x y rest hstack hrest,
      i64WrappingSub_spec x y⟩
  · intro fops s x y rest hstack hrest
    exact ⟨execBinaryArith_i64 _ _ _ fops s x y rest hstack hrest,
      i64WrappingMul_spec x y⟩
  · intro fops s x y rest hstack hrest
    exact ⟨execBinaryArith_u64 _ _ _ fops s x y rest hstack hrest,
      execBinaryArith_u64 _ _ _ fops s x y rest hstack hrest,
      execBinaryArith_u64 _ _ _ fops s x y rest hstack hrest,
      (u64WrappingSub_spec x y).1⟩
  · intro fops s x rest hstack
    obtain ⟨st, bi, cs, pc, fns, cc⟩ := s
    simp only at hstack
    subst hstack
    constructor
    · simp [execDiv, vmPop, ok_bind]
    · simp [execMod, vmPop, ok_bind]
  · intro fops s x rest hstack
    obtain ⟨st, bi, cs, pc, fns, cc⟩ := s
    simp only at hstack
    subst hstack
    constructor
    · simp [execDiv, vmPop, ok_bind]
    · simp [execMod, vmPop, ok_bind]
  · intro blake3
    rfl
  · intro fops f
    rfl

/-- Closed instances of `integer_wrapping_and_division_by_zero`: wrapping
ADD on concrete I64 operands and DIV by a concrete zero divisor. -/
theorem integer_wrapping_witness :
    execBinaryArith i64WrappingAdd u64WrappingAdd zeroFloatOps.fadd zeroFloatOps
        { vmNew with stack := [.I64 2, .I64 3] }
      = .ok { { vmNew with stack := [.I64 2, .I64 3] } with
              stack := [.I64 (i64WrappingAdd 3 2)] } ∧
    execDiv zeroFloatOps { vmNew with stack := [.I64 0, .I64 1], pc := 3 }
      = .error (.DivisionByZero 2) := by
  constructor
  · exact (integer_wrapping_and_division_by_zero.1 zeroFloatOps
      { vmNew with stack := [.I64 2, .I64 3] } 3 2 [] rfl (by decide)).1
  · exact (integer_wrapping_and_division_by_zero.2.2.2.2.1 zeroFloatOps
      { vmNew with stack := [.I64 0, .I64 1], pc := 3 } 1 [] rfl).1

/-- C4.  The hashing pass: a function without `hash_pc` yields
`MissingHash`; otherwise the digest is taken over the concatenated 8-byte
encodings of the instructions in `[func_pc, hash_pc)`, its first six bytes
are compared (big-endian) with the stored `(arg1, arg2, arg3)`, and
`HashMismatch` is reported exactly when the triple differs.  The digest
function itself (the external `blake3` crate) is abstract here, so the
statement holds for every digest function, in particular blake3-256. -/
theorem hashing_pass_spec :
    (∀ (blake3 : List Nat → List Nat) (instrs : List Instruction)
        (ctx : ProgramContext),
      checkHashing blake3 instrs ctx
        = ctx.functions.flatMap (checkFuncHash blake3 instrs)) ∧
    (∀ (blake3 : List Nat → List Nat) (instrs : List Instruction)
        (func : FuncInfo), func.hashPc = none →
      checkFuncHash blake3 instrs func = [.MissingHash func.funcPc]) ∧
    (∀ (instrs : List Instruction) (funcPc hashPc : Nat),
      hashInputBytes instrs funcPc hashPc
        = (((instrs.drop funcPc).take (hashPc - funcPc)).map
            Instruction.encode).flatten) ∧
    (∀ (blake3 : List Nat → List Nat) (instrs : List Instruction)
        (func : FuncInfo) (hpc : Nat), func.hashPc = some hpc →
      ∀ (d0 d1 d2 d3 d4 d5 : Nat) (drest : List Nat),
        blake3 (hashInputBytes instrs func.funcPc hpc)
          = d0 :: d1 :: d2 :: d3 :: d4 :: d5 :: drest →
        d0 < 256 → d1 < 256 → d2 < 256 → d3 < 256 → d4 < 256 → d5 < 256 →
        (getI instrs hpc).wf →
        ((checkFuncHash blake3 instrs func = [] ↔
          ((getI instrs hpc).arg1 = 256 * d0 + d1 ∧
           (getI instrs hpc).arg2 = 256 * d2 + d3 ∧
           (getI instrs hpc).arg3 = 256 * d4 + d5)) ∧
         (¬((getI instrs hpc).arg1 = 256 * d0 + d1 ∧
            (getI instrs hpc).arg2 = 256 * d2 + d3 ∧
            (getI instrs hpc).arg3 = 256 * d4 + d5) →
          checkFuncHash blake3 instrs func
            = [.HashMismatch hpc
                [(getI instrs hpc).arg1 / 256, (getI instrs hpc).arg1 % 256,
                 (getI instrs hpc).arg2 / 256, (getI instrs hpc).arg2 % 256,
                 (getI instrs hpc).arg3 / 256, (getI instrs hpc).arg3 % 256]
                [d0, d1, d2, d3, d4, d5]]))) := by
  refine ⟨fun _ _ _ => rfl, ?_, fun _ _ _ => rfl, ?_⟩
  · intro blake3 instrs func hnone
    simp [checkFuncHash, hnone]
  · intro blake3 instrs func hpc hsome d0 d1 d2 d3 d4 d5 drest hdig
      hb0 hb1 hb2 hb3 hb4 hb5 hwf
    obtain ⟨hw1, hw2, hw3⟩ := hwf
    have hcomp : (blake3 (hashInputBytes instrs func.funcPc hpc)).take 6
        = [d0, d1, d2, d3, d4, d5] := by
      rw [hdig]; rfl
    have hiff :
        ([(getI instrs hpc).arg1 / 256, (getI instrs hpc).arg1 % 256,
          (getI instrs hpc).arg2 / 256, (getI instrs hpc).arg2 % 256,
          (getI instrs hpc).arg3 / 256, (getI instrs hpc).arg3 % 256]
            = [d0, d1, d2, d3, d4, d5]) ↔
        ((getI instrs hpc).arg1 = 256 * d0 + d1 ∧
         (getI instrs hpc).arg2 = 256 * d2 + d3 ∧
         (getI instrs hpc).arg3 = 256 * d4 + d5) := by
      simp only [List.cons.injEq, and_true]
      constructor
      · rintro ⟨e0, e1, e2, e3, e4, e5⟩
        omega
      · rintro ⟨e1, e2, e3⟩
        refine ⟨?_, ?_, ?_, ?_, ?_, ?_⟩ <;> omega
    constructor
    · constructor
      · intro hempty
        by_contra hne
        have hne' := (not_iff_not.mpr hiff).mpr hne
        simp only [checkFuncHash, hsome, hcomp] at hempty
        rw [if_pos hne'] at hempty
        cases hempty
      · intro htriple
        simp only [checkFuncHash, hsome, hcomp]
        rw [if_neg]
        simp only [ne_eq, not_not]
        exact hiff.mpr htriple
    · intro hne
      have hne' := (not_iff_not.mpr hiff).mpr hne
      simp only [checkFuncHash, hsome, hcomp]
      rw [if_pos hne']

/-- Closed instances of `hashing_pass_spec` with the all-zero digest
function: a function with no `hash_pc` reports `MissingHash`; a HASH
instruction whose args are all zero matches an all-zero digest. -/
theorem hashing_pass_spec_witness :
    checkFuncHash (fun _ => List.replicate 32 0)
        [Instruction.new .Hash .None 0 0 0]
        { funcPc := 0, endfuncPc := 1, paramCount := 0, bodyLen := 0,
          paramTypes := [], preConditions := [], postConditions := [],
          bodyStartPc := 1, hashPc := none }
      = [.MissingHash 0] ∧
    checkFuncHash (fun _ => List.replicate 32 0)
        [Instruction.new .Hash .None 0 0 0]
        { funcPc := 0, endfuncPc := 1, paramCount := 0, bodyLen := 0,
          paramTypes := [], preConditions := [], postConditions := [],
          bodyStartPc := 1, hashPc := some 0 }
      = [] := by
  constructor
  · exact hashing_pass_spec.2.1 _ _ _ rfl
  · exact ((hashing_pass_spec.2.2.2 (fun _ => List.replicate 32 0)
      [Instruction.new .Hash .None 0 0 0] _ 0 rfl 0 0 0 0 0 0
      (List.replicate 26 0) rfl (by decide) (by decide) (by decide)
      (by decide) (by decide) (by decide) (by decide)).1).mpr
      ⟨rfl, rfl, rfl⟩

theorem casePositions_length (instrs : List Instruction) :
    ∀ count scan, (casePositions instrs count scan).length = count := by
  intro count
  induction count with
  | zero => intro scan; rfl
  | succ n ih => intro scan; simp [casePositions, ih]

theorem scanCasesVM_spec (instrs : List Instruction) (tag : Nat) :
    ∀ (count scan : Nat) (acc : Option (Nat × Nat)),
      (∀ p ∈ casePositions instrs count scan,
        p < instrs.length ∧ opAt instrs p = Opcode.Case) →
      scanCasesVM instrs tag count scan acc
        = .ok (caseScanEnd instrs count scan,
            match acc with
            | some x => some x
            | none =>
              ((casePositions instrs count scan).find?
                  (fun p => (getI instrs p).arg1 = tag)).map
                (fun p => (p + 1, (getI instrs p).arg2))) := by
  intro count
  induction count with
  | zero =>
    intro scan acc _
    cases acc <;> rfl
  | succ n ih =>
    intro scan acc hcases
    have hhead := hcases scan (by simp [casePositions])
    have htail : ∀ p ∈ casePositions instrs n (scan + 1 + (getI instrs scan).arg2),
        p < instrs.length ∧ opAt instrs p = Opcode.Case := by
      intro p hp
      exact hcases p (by simp [casePositions, hp])
    have hnotge : ¬scan ≥ instrs.length := by omega
    have hcase : (getI instrs scan).opcode = Opcode.Case := hhead.2
    simp only [scanCasesVM, hnotge, if_false, hcase, ne_eq, not_true_eq_false,
      reduceIte]
    rw [ih _ _ htail]
    cases acc with
    | some x =>
      simp only [caseScanEnd]
      have : ¬((getI instrs scan).arg1 = tag ∧ (some x : Option (Nat × Nat)) = none) := by
        simp
      rw [if_neg this]
    | none =>
      by_cases htag : (getI instrs scan).arg1 = tag
      · rw [if_pos ⟨htag, rfl⟩]
        simp only [caseScanEnd, casePositions]
        rw [List.find?_cons_of_pos _ (by simpa using htag)]
        rfl
      · rw [if_neg (by simp [htag])]
        simp only [caseScanEnd, casePositions]
        rw [List.find?_cons_of_neg _ (by simpa using htag)]

/-- C10.  When MATCH's scan meets more than one CASE with the selector's
tag (possible only for unverified programs), the VM enters the body of the
FIRST such CASE in program order — `find?` over the scanned positions — and
raises no error for the duplication. -/
theorem match_takes_first_duplicate_case
    (instrs : List Instruction) (instr : Instruction) (s : VMState)
    (sel : Value) (rest : List Value) (t : Nat)
    (hstack : s.stack = sel :: rest)
    (hsel : selectorTag sel = some t)
    (hcases : ∀ p ∈ casePositions instrs instr.arg1 s.pc,
      p < instrs.length ∧ opAt instrs p = Opcode.Case)
    (i j : Nat) (hij : i < j) (hj : j < instr.arg1)
    (hdupi : (getI instrs ((casePositions instrs instr.arg1 s.pc).getD i 0)).arg1 = t)
    (hdupj : (getI instrs ((casePositions instrs instr.arg1 s.pc).getD j 0)).arg1 = t)
    (hroom : rest.length < MAX_STACK_DEPTH) :
    ∃ p₀,
      (casePositions instrs instr.arg1 s.pc).find?
          (fun p => (getI instrs p).arg1 = t) = some p₀ ∧
      execMatch instrs instr s = .ok
        { s with
          stack := (match sel with
            | .Variant _ _ payload => payload :: rest
            | _ => rest),
          pc := p₀ + 1,
          caseContexts :=
            (p₀ + 1 + (getI instrs p₀).arg2,
             caseScanEnd instrs instr.arg1 s.pc + 1) :: s.caseContexts } := by
  have hlen := casePositions_length instrs instr.arg1 s.pc
  have hmem : (casePositions instrs instr.arg1 s.pc).getD i 0
      ∈ casePositions instrs instr.arg1 s.pc := by
    have hi : i < (casePositions instrs instr.arg1 s.pc).length := by omega
    rw [List.getD_eq_getElem _ _ hi]
    exact List.getElem_mem hi
  have hfind : ((casePositions instrs instr.arg1 s.pc).find?
      (fun p => (getI instrs p).arg1 = t)).isSome := by
    rw [List.find?_isSome]
    exact ⟨_, hmem, by simpa using hdupi⟩
  obtain ⟨p₀, hp₀⟩ := Option.isSome_iff_exists.mp hfind
  refine ⟨p₀, hp₀, ?_⟩
  have hscan := scanCasesVM_spec instrs t instr.arg1 s.pc none hcases
  rw [hp₀] at hscan
  cases sel with
  | Bool b =>
    have ht : (if b then (1 : Nat) else 0) = t := Option.some_inj.mp hsel
    subst ht
    simp only [execMatch, matchTag, matchPushPayload, vmPop, hstack, ok_bind]
    rw [hscan]
    simp [ok_bind, matchPushPayload]
  | Variant tc tg payload =>
    have ht : tg = t := Option.some_inj.mp hsel
    subst ht
    simp only [execMatch, matchTag, matchPushPayload, vmPop, hstack, ok_bind]
    rw [hscan]
    simp [ok_bind, matchPushPayload, vmPush, Nat.not_le.mpr hroom]
  | I64 v => simp [selectorTag] at hsel
  | U64 v => simp [selectorTag] at hsel
  | F64 v => simp [selectorTag] at hsel
  | Char v => simp [selectorTag] at hsel
  | Unit => simp [selectorTag] at hsel
  | Tuple vs => simp [selectorTag] at hsel
  | Array vs => simp [selectorTag] at hsel

/-- Closed instance of `match_takes_first_duplicate_case`: two CASEs with
tag 0 — the VM enters the first one's body at pc 2 and reports no error. -/
theorem match_takes_first_duplicate_case_witness :
    execMatch
        [Instruction.new .Match .None 2 0 0,
         Instruction.new .Case .None 0 1 0,
         Instruction.new .Nop .None 0 0 0,
         Instruction.new .Case .None 0 1 0,
         Instruction.new .Nop .None 0 0 0,
         Instruction.new .Exhaust .None 0 0 0]
        (Instruction.new .Match .None 2 0 0)
        { vmNew with stack := [Value.Variant 2 0 Value.Unit], pc := 1 }
      = .ok ({ vmNew with
                 stack := [Value.Unit],
                 pc := 2,
                 caseContexts := [(3, 6)] } : VMState) := by
  obtain ⟨p₀, hp₀, hexec⟩ := match_takes_first_duplicate_case
    [Instruction.new .Match .None 2 0 0,
     Instruction.new .Case .None 0 1 0,
     Instruction.new .Nop .None 0 0 0,
     Instruction.new .Case .None 0 1 0,
     Instruction.new .Nop .None 0 0 0,
     Instruction.new .Exhaust .None 0 0 0]
    (Instruction.new .Match .None 2 0 0)
    { vmNew with stack := [Value.Variant 2 0 Value.Unit], pc := 1 }
    (Value.Variant 2 0 Value.Unit) [] 0 rfl rfl (by decide) 0 1 (by decide) (by decide)
    (by decide) (by decide) (by decide)
  have hp : p₀ = 1 := by
    have hconc : ((casePositions
        [Instruction.new .Match .None 2 0 0,
         Instruction.new .Case .None 0 1 0,
         Instruction.new .Nop .None 0 0 0,
         Instruction.new .Case .None 0 1 0,
         Instruction.new .Nop .None 0 0 0,
         Instruction.new .Exhaust .None 0 0 0] 2 1).find?
        (fun p => (getI
          [Instruction.new .Match .None 2 0 0,
           Instruction.new .Case .None 0 1 0,
           Instruction.new .Nop .None 0 0 0,
           Instruction.new .Case .None 0 1 0,
           Instruction.new .Nop .None 0 0 0,
           Instruction.new .Exhaust .None 0 0 0] p).arg1 = 0)) = some 1 := by
      decide
    have hp₀2 : ((casePositions
        [Instruction.new .Match .None 2 0 0,
         Instruction.new .Case .None 0 1 0,
         Instruction.new .Nop .None 0 0 0,
         Instruction.new .Case .None 0 1 0,
         Instruction.new .Nop .None 0 0 0,
         Instruction.new .Exhaust .None 0 0 0] 2 1).find?
        (fun p => (getI
          [Instruction.new .Match .None 2 0 0,
           Instruction.new .Case .None 0 1 0,
           Instruction.new .Nop .None 0 0 0,
           Instruction.new .Case .None 0 1 0,
           Instruction.new .Nop .None 0 0 0,
           Instruction.new .Exhaust .None 0 0 0] p).arg1 = 0)) = some p₀ := hp₀
    rw [hconc] at hp₀2
    exact (Option.some_inj.mp hp₀2).symm
  subst hp
  simpa using hexec

theorem vmPush_ok_facts {s : VMState} {v : Value} {s' : VMState}
    (h : vmPush s v = .ok s') :
    s'.stack = v :: s.stack ∧ s.stack.length < MAX_STACK_DEPTH ∧
    s'.stack.length ≤ MAX_STACK_DEPTH := by
  unfold vmPush at h
  split at h
  · cases h
  · rename_i hlt
    cases h
    refine ⟨rfl, by omega, ?_⟩
    simp only [List.length_cons]
    omega

theorem vmPop_ok_facts {s : VMState} {v : Value} {s' : VMState}
    (h : vmPop s = .ok (v, s')) : s.stack = v :: s'.stack := by
  unfold vmPop at h
  cases hs : s.stack with
  | nil => rw [hs] at h; cases h
  | cons a rest =>
    rw [hs] at h
    cases h
    rfl

theorem vmPopN_ok_len :
    ∀ {n : Nat} {s : VMState} {vs : List Value} {s' : VMState},
      vmPopN n s = .ok (vs, s') → s'.stack.length ≤ s.stack.length := by
  intro n
  induction n with
  | zero =>
    intro s vs s' h
    cases h
    exact le_refl _
  | succ n ih =>
    intro s vs s' h
    unfold vmPopN at h
    obtain ⟨⟨v, s1⟩, h1, h⟩ := exceptBind_ok h
    obtain ⟨⟨vs2, s2⟩, h2, h⟩ := exceptBind_ok h
    cases h
    have hp := vmPop_ok_facts h1
    have hn := ih h2
    have : s1.stack.length + 1 = s.stack.length := by rw [hp]; rfl
    omega

theorem execConst_stackLen {instr : Instruction} {s s' : VMState}
    (h : execConst instr s = .ok s') : s'.stack.length ≤ MAX_STACK_DEPTH := by
  unfold execConst at h
  split at h
  · exact (vmPush_ok_facts h).2.2
  · cases h

theorem execConstExt_stackLen {fops : FloatOps} {instrs : List Instruction}
    {instr : Instruction} {s s' : VMState}
    (h : execConstExt fops instrs instr s = .ok s') :
    s'.stack.length ≤ MAX_STACK_DEPTH := by
  unfold execConstExt at h
  obtain ⟨next, hn, h⟩ := exceptBind_ok h
  split at h
  · exact (vmPush_ok_facts h).2.2
  · exact (vmPush_ok_facts h).2.2
  · obtain ⟨u, hc, h⟩ := exceptBind_ok h
    exact (vmPush_ok_facts h).2.2
  · cases h

theorem execBind_stackLen {s s' : VMState}
    (hInv : s.stack.length ≤ MAX_STACK_DEPTH)
    (h : execBind s = .ok s') : s'.stack.length ≤ MAX_STACK_DEPTH := by
  unfold execBind at h
  obtain ⟨⟨v, s1⟩, hp, h⟩ := exceptBind_ok h
  cases h
  have := vmPop_ok_facts hp
  have hlen : s1.stack.length + 1 = s.stack.length := by rw [this]; rfl
  simpa using by omega

theorem execRef_stackLen {instr : Instruction} {s s' : VMState}
    (h : execRef instr s = .ok s') : s'.stack.length ≤ MAX_STACK_DEPTH := by
  simp only [execRef] at h
  split at h
  · exact Except.noConfusion h
  · exact (vmPush_ok_facts h).2.2

theorem execDrop_stackLen {s s' : VMState}
    (hInv : s.stack.length ≤ MAX_STACK_DEPTH)
    (h : execDrop s = .ok s') : s'.stack.length ≤ MAX_STACK_DEPTH := by
  unfold execDrop at h
  split at h
  · cases h
  · cases h
    exact hInv

theorem execBinaryArith_stackLen {i64op : Int → Int → Int}
    {u64op : Nat → Nat → Nat} {f64op : Nat → Nat → Nat} {fops : FloatOps}
    {s s' : VMState} (h : execBinaryArith i64op u64op f64op fops s = .ok s') :
    s'.stack.length ≤ MAX_STACK_DEPTH := by
  unfold execBinaryArith at h
  obtain ⟨⟨b, s1⟩, hb, h⟩ := exceptBind_ok h
  obtain ⟨⟨a, s2⟩, ha, h⟩ := exceptBind_ok h
  dsimp only at h
  split at h <;>
    first
    | exact Except.noConfusion h
    | exact (vmPush_ok_facts h).2.2
    | (obtain ⟨u, hc, hv⟩ := exceptBind_ok h
       exact (vmPush_ok_facts hv).2.2)

theorem execDiv_stackLen {fops : FloatOps} {s s' : VMState}
    (h : execDiv fops s = .ok s') : s'.stack.length ≤ MAX_STACK_DEPTH := by
  unfold execDiv at h
  obtain ⟨⟨b, s1⟩, hb, h⟩ := exceptBind_ok h
  obtain ⟨⟨a, s2⟩, ha, h⟩ := exceptBind_ok h
  dsimp only at h
  split at h <;>
    first
    | exact Except.noConfusion h
    | exact (vmPush_ok_facts h).2.2
    | (obtain ⟨u, hc, hv⟩ := exceptBind_ok h
       exact (vmPush_ok_facts hv).2.2)
    | (split at h <;>
        first
        | exact Except.noConfusion h
        | exact (vmPush_ok_facts h).2.2
        | (obtain ⟨u, hc, hv⟩ := exceptBind_ok h
           exact (vmPush_ok_facts hv).2.2))

theorem execMod_stackLen {s s' : VMState} (h : execMod s = .ok s') :
    s'.stack.length ≤ MAX_STACK_DEPTH := by
  unfold execMod at h
  obtain ⟨⟨b, s1⟩, hb, h⟩ := exceptBind_ok h
  obtain ⟨⟨a, s2⟩, ha, h⟩ := exceptBind_ok h
  dsimp only at h
  split at h <;>
    first
    | exact Except.noConfusion h
    | exact (vmPush_ok_facts h).2.2

theorem execNeg_stackLen {fops : FloatOps} {s s' : VMState}
    (h : execNeg fops s = .ok s') : s'.stack.length ≤ MAX_STACK_DEPTH := by
  unfold execNeg at h
  obtain ⟨⟨a, s1⟩, ha, h⟩ := exceptBind_ok h
  dsimp only at h
  split at h <;>
    first
    | exact Except.noConfusion h
    | exact (vmPush_ok_facts h).2.2
    | (obtain ⟨u, hc, hv⟩ := exceptBind_ok h
       exact (vmPush_ok_facts hv).2.2)

theorem execComparison_stackLen {i64op : Int → Int → Bool}
    {u64op : Nat → Nat → Bool} {f64op : Nat → Nat → Bool} {s s' : VMState}
    (h : execComparison i64op u64op f64op s = .ok s') :
    s'.stack.length ≤ MAX_STACK_DEPTH := by
  unfold execComparison at h
  obtain ⟨⟨b, s1⟩, hb, h⟩ := exceptBind_ok h
  obtain ⟨⟨a, s2⟩, ha, h⟩ := exceptBind_ok h
  dsimp only at h
  split at h <;>
    first
    | exact Except.noConfusion h
    | exact (vmPush_ok_facts h).2.2

theorem execLogicAnd_stackLen {s s' : VMState}
    (h : execLogicAnd s = .ok s') : s'.stack.length ≤ MAX_STACK_DEPTH := by
  unfold execLogicAnd at h
  obtain ⟨⟨b, s1⟩, hb, h⟩ := exceptBind_ok h
  obtain ⟨⟨a, s2⟩, ha, h⟩ := exceptBind_ok h
  dsimp only at h
  split at h <;>
    first
    | exact Except.noConfusion h
    | exact (vmPush_ok_facts h).2.2

theorem execLogicOr_stackLen {s s' : VMState}
    (h : execLogicOr s = .ok s') : s'.stack.length ≤ MAX_STACK_DEPTH := by
  unfold execLogicOr at h
  obtain ⟨⟨b, s1⟩, hb, h⟩ := exceptBind_ok h
  obtain ⟨⟨a, s2⟩, ha, h⟩ := exceptBind_ok h
  dsimp only at h
  split at h <;>
    first
    | exact Except.noConfusion h
    | exact (vmPush_ok_facts h).2.2

theorem execLogicNot_stackLen {s s' : VMState}
    (h : execLogicNot s = .ok s') : s'.stack.length ≤ MAX_STACK_DEPTH := by
  unfold execLogicNot at h
  obtain ⟨⟨a, s1⟩, ha, h⟩ := exceptBind_ok h
  dsimp only at h
  split at h <;>
    first
    | exact Except.noConfusion h
    | exact (vmPush_ok_facts h).2.2

theorem execLogicXor_stackLen {s s' : VMState}
    (h : execLogicXor s = .ok s') : s'.stack.length ≤ MAX_STACK_DEPTH := by
  unfold execLogicXor at h
  obtain ⟨⟨b, s1⟩, hb, h⟩ := exceptBind_ok h
  obtain ⟨⟨a, s2⟩, ha, h⟩ := exceptBind_ok h
  dsimp only at h
  split at h <;>
    first
    | exact Except.noConfusion h
    | exact (vmPush_ok_facts h).2.2

theorem execShiftLeft_stackLen {s s' : VMState}
    (h : execShiftLeft s = .ok s') : s'.stack.length ≤ MAX_STACK_DEPTH := by
  unfold execShiftLeft at h
  obtain ⟨⟨b, s1⟩, hb, h⟩ := exceptBind_ok h
  obtain ⟨⟨a, s2⟩, ha, h⟩ := exceptBind_ok h
  dsimp only at h
  split at h <;>
    first
    | exact Except.noConfusion h
    | exact (vmPush_ok_facts h).2.2

theorem execShiftRight_stackLen {s s' : VMState}
    (h : execShiftRight s = .ok s') : s'.stack.length ≤ MAX_STACK_DEPTH := by
  unfold execShiftRight at h
  obtain ⟨⟨b, s1⟩, hb, h⟩ := exceptBind_ok h
  obtain ⟨⟨a, s2⟩, ha, h⟩ := exceptBind_ok h
  dsimp only at h
  split at h <;>
    first
    | exact Except.noConfusion h
    | exact (vmPush_ok_facts h).2.2

theorem matchPushPayload_len {s : VMState} {v : Value} {s1 : VMState}
    (hs : s.stack.length ≤ MAX_STACK_DEPTH)
    (h : matchPushPayload s v = .ok s1) :
    s1.stack.length ≤ MAX_STACK_DEPTH := by
  cases v <;>
    first
    | exact (vmPush_ok_facts h).2.2
    | (have he := Except.ok.inj h
       subst he
       exact hs)

theorem execMatch_stackLen {instrs : List Instruction} {instr : Instruction}
    {s s' : VMState} (hInv : s.stack.length ≤ MAX_STACK_DEPTH)
    (h : execMatch instrs instr s = .ok s') :
    s'.stack.length ≤ MAX_STACK_DEPTH := by
  unfold execMatch at h
  obtain ⟨⟨mv, s1⟩, hp, h⟩ := exceptBind_ok h
  obtain ⟨tag, ht, h⟩ := exceptBind_ok h
  obtain ⟨⟨scanEnd, found⟩, hscan, h⟩ := exceptBind_ok h
  have hs1 : s1.stack.length ≤ MAX_STACK_DEPTH := by
    have := vmPop_ok_facts hp
    have : s1.stack.length + 1 = s.stack.length := by rw [this]; rfl
    omega
  dsimp only at h
  split at h
  · exact Except.noConfusion h
  · obtain ⟨s2, hpush, h⟩ := exceptBind_ok h
    have hs2 : s2.stack.length ≤ MAX_STACK_DEPTH := matchPushPayload_len hs1 hpush
    have he := Except.ok.inj h
    subst he
    exact hs2

theorem execVariantNew_stackLen {instr : Instruction} {s s' : VMState}
    (h : execVariantNew instr s = .ok s') :
    s'.stack.length ≤ MAX_STACK_DEPTH := by
  unfold execVariantNew at h
  obtain ⟨⟨p, s1⟩, hp, h⟩ := exceptBind_ok h
  exact (vmPush_ok_facts h).2.2

theorem execTupleNew_stackLen {instr : Instruction} {s s' : VMState}
    (h : execTupleNew instr s = .ok s') :
    s'.stack.length ≤ MAX_STACK_DEPTH := by
  unfold execTupleNew at h
  obtain ⟨⟨fields, s1⟩, hp, h⟩ := exceptBind_ok h
  exact (vmPush_ok_facts h).2.2

theorem execProject_stackLen {instr : Instruction} {s s' : VMState}
    (h : execProject instr s = .ok s') :
    s'.stack.length ≤ MAX_STACK_DEPTH := by
  unfold execProject at h
  obtain ⟨⟨t, s1⟩, hp, h⟩ := exceptBind_ok h
  dsimp only at h
  split at h <;>
    first
    | exact Except.noConfusion h
    | exact (vmPush_ok_facts h).2.2
    | (split at h <;>
        first
        | exact Except.noConfusion h
        | exact (vmPush_ok_facts h).2.2)

theorem execArrayNew_stackLen {instr : Instruction} {s s' : VMState}
    (h : execArrayNew instr s = .ok s') :
    s'.stack.length ≤ MAX_STACK_DEPTH := by
  unfold execArrayNew at h
  obtain ⟨⟨elements, s1⟩, hp, h⟩ := exceptBind_ok h
  exact (vmPush_ok_facts h).2.2

theorem execArrayGet_stackLen {s s' : VMState}
    (h : execArrayGet s = .ok s') : s'.stack.length ≤ MAX_STACK_DEPTH := by
  unfold execArrayGet at h
  obtain ⟨⟨iv, s1⟩, hp, h⟩ := exceptBind_ok h
  obtain ⟨⟨av, s2⟩, hq, h⟩ := exceptBind_ok h
  dsimp only at h
  split at h <;>
    first
    | exact Except.noConfusion h
    | exact (vmPush_ok_facts h).2.2
    | (split at h <;>
        first
        | exact Except.noConfusion h
        | exact (vmPush_ok_facts h).2.2)

theorem execArrayLen_stackLen {s s' : VMState}
    (h : execArrayLen s = .ok s') : s'.stack.length ≤ MAX_STACK_DEPTH := by
  unfold execArrayLen at h
  obtain ⟨⟨av, s1⟩, hp, h⟩ := exceptBind_ok h
  dsimp only at h
  split at h <;>
    first
    | exact Except.noConfusion h
    | exact (vmPush_ok_facts h).2.2

theorem execAssert_stackLen {s s' : VMState}
    (hInv : s.stack.length ≤ MAX_STACK_DEPTH)
    (h : execAssert s = .ok s') : s'.stack.length ≤ MAX_STACK_DEPTH := by
  unfold execAssert at h
  obtain ⟨⟨v, s1⟩, hp, h⟩ := exceptBind_ok h
  have hpp := vmPop_ok_facts hp
  have hl : s1.stack.length + 1 = s.stack.length := by rw [hpp]; rfl
  dsimp only at h
  split at h <;>
    first
    | exact Except.noConfusion h
    | (have he := Except.ok.inj h
       subst he
       omega)

theorem execTypeof_stackLen {instr : Instruction} {s s' : VMState}
    (h : execTypeof instr s = .ok s') :
    s'.stack.length ≤ MAX_STACK_DEPTH := by
  unfold execTypeof at h
  dsimp only at h
  split at h <;>
    first
    | exact Except.noConfusion h
    | (obtain ⟨⟨v, s1⟩, hp, hv⟩ := exceptBind_ok h
       obtain ⟨s2, hq, hw⟩ := exceptBind_ok hv
       exact (vmPush_ok_facts hw).2.2)

theorem retFinish_ok_len {callFrame : CallFrame} {rv : Value}
    {r : VmRes VMState} {s' : VMState}
    (h : retFinish callFrame rv r = .ok s') :
    s'.stack.length ≤ MAX_STACK_DEPTH := by
  cases r with
  | ok s =>
    simp only [retFinish] at h
    exact (vmPush_ok_facts (liftE_ok h)).2.2
  | err e => simp only [retFinish] at h; cases h
  | timeout => simp only [retFinish] at h; cases h

theorem execRet_stackLen {fops : FloatOps} {instrs : List Instruction}
    {fuel : Nat} {s s' : VMState}
    (h : execRet fops instrs fuel s = .ok s') :
    s'.stack.length ≤ MAX_STACK_DEPTH := by
  cases fuel with
  | zero => cases h
  | succ fuel =>
    unfold execRet at h
    split at h
    · cases h
    · split at h
      · cases h
      · exact retFinish_ok_len h

theorem vm_stack_inv (fops : FloatOps) (instrs : List Instruction) :
    ∀ fuel : Nat,
      (∀ endPc s s', s.stack.length ≤ MAX_STACK_DEPTH →
        execRangeGo fops instrs fuel endPc s = .ok s' →
        s'.stack.length ≤ MAX_STACK_DEPTH) ∧
      (∀ startPc len s s', s.stack.length ≤ MAX_STACK_DEPTH →
        execRange fops instrs fuel startPc len s = .ok s' →
        s'.stack.length ≤ MAX_STACK_DEPTH) ∧
      (∀ pres s s', s.stack.length ≤ MAX_STACK_DEPTH →
        execPreConditions fops instrs fuel pres s = .ok s' →
        s'.stack.length ≤ MAX_STACK_DEPTH) ∧
      (∀ instr s s', s.stack.length ≤ MAX_STACK_DEPTH →
        execCall fops instrs fuel instr s = .ok s' →
        s'.stack.length ≤ MAX_STACK_DEPTH) ∧
      (∀ instr s s', s.stack.length ≤ MAX_STACK_DEPTH →
        execRecurse fops instrs fuel instr s = .ok s' →
        s'.stack.length ≤ MAX_STACK_DEPTH) ∧
      (∀ posts s s', s.stack.length ≤ MAX_STACK_DEPTH →
        execPostConditions fops instrs fuel posts s = .ok s' →
        s'.stack.length ≤ MAX_STACK_DEPTH) ∧
      (∀ instr s s', s.stack.length ≤ MAX_STACK_DEPTH →
        execOne fops instrs fuel instr s = .ok s' →
        s'.stack.length ≤ MAX_STACK_DEPTH) := by
  intro fuel
  induction fuel with
  | zero =>
    refine ⟨?_, ?_, ?_, ?_, ?_, ?_, ?_⟩ <;>
      (intros; rename_i h; exact VmRes.noConfusion h)
  | succ fuel ih =>
    obtain ⟨ihRangeGo, ihRange, ihPre, ihCall, ihRecurse, ihPost, ihOne⟩ := ih
    refine ⟨?_, ?_, ?_, ?_, ?_, ?_, ?_⟩
    · intro endPc s s' hInv h
      unfold execRangeGo at h
      split at h
      · split at h
        · exact VmRes.noConfusion h
        · split at h
          · rename_i hone
            refine ihRangeGo endPc _ s' (ihOne _ _ _ ?_ hone) h
            exact hInv
          · rename_i hne
            exact absurd h (hne s')
      · have he := VmRes.ok.inj h
        subst he
        exact hInv
    · intro startPc len s s' hInv h
      simp only [execRange] at h
      split at h
      · rename_i s2 hgo
        have he := VmRes.ok.inj h
        subst he
        exact ihRangeGo (startPc + len) { s with pc := startPc } s2 hInv hgo
      · rename_i hne
        exact absurd h (hne s')
    · intro pres s s' hInv h
      cases pres with
      | nil =>
        have he := VmRes.ok.inj h
        subst he
        exact hInv
      | cons p rest =>
        obtain ⟨preStart, preLen⟩ := p
        unfold execPreConditions at h
        split at h
        · rename_i s1 hrange
          have hs1 := ihRange preStart preLen s s1 hInv hrange
          cases hpop : vmPop s1 with
          | error e => rw [hpop] at h; exact VmRes.noConfusion h
          | ok p2 =>
            obtain ⟨cond, s2⟩ := p2
            rw [hpop] at h
            dsimp only at h
            have hp := vmPop_ok_facts hpop
            have hl : s2.stack.length + 1 = s1.stack.length := by rw [hp]; rfl
            have hs2 : s2.stack.length ≤ MAX_STACK_DEPTH := by omega
            split at h <;>
              first
              | exact VmRes.noConfusion h
              | exact ihPre rest s2 s' hs2 h
        · rename_i hne
          exact absurd h (hne s')
    · intro instr s s' hInv h
      simp only [execCall] at h
      split at h
      · exact VmRes.noConfusion h
      · rename_i funcInfo hget
        cases hpopn : vmPopN funcInfo.paramCount s with
        | error e => rw [hpopn] at h; exact VmRes.noConfusion h
        | ok p =>
          obtain ⟨args, s1⟩ := p
          rw [hpopn] at h
          dsimp only at h
          have hs1 : s1.stack.length ≤ MAX_STACK_DEPTH :=
            le_trans (vmPopN_ok_len hpopn) hInv
          split at h
          · rename_i s2 hpre
            have he := VmRes.ok.inj h
            subst he
            exact ihPre funcInfo.preConditions
              { s1 with bindings := args ++ s1.bindings } s2 hs1 hpre
          · rename_i hne
            exact absurd h (hne s')
    · intro instr s s' hInv h
      simp only [execRecurse] at h
      split at h
      · exact VmRes.noConfusion h
      · rename_i currentFrame hframe
        split at h
        · exact VmRes.noConfusion h
        · cases hpopn : vmPopN (s.functions.getD currentFrame.funcIndex
              { paramCount := 0, bodyStartPc := 0,
                preConditions := [], postConditions := [] }).paramCount s with
          | error e => rw [hpopn] at h; exact VmRes.noConfusion h
          | ok p =>
            obtain ⟨args, s1⟩ := p
            rw [hpopn] at h
            dsimp only at h
            have hs1 : s1.stack.length ≤ MAX_STACK_DEPTH :=
              le_trans (vmPopN_ok_len hpopn) hInv
            split at h
            · rename_i s2 hpre
              have he := VmRes.ok.inj h
              subst he
              exact ihPre _ { s1 with bindings := args ++ s1.bindings } s2 hs1 hpre
            · rename_i hne
              exact absurd h (hne s')
    · intro posts s s' hInv h
      cases posts with
      | nil =>
        have he := VmRes.ok.inj h
        subst he
        exact hInv
      | cons p rest =>
        obtain ⟨postStart, postLen⟩ := p
        unfold execPostConditions at h
        split at h
        · rename_i s1 hrange
          have hs1 := ihRange postStart postLen s s1 hInv hrange
          cases hpop : vmPop s1 with
          | error e => rw [hpop] at h; exact VmRes.noConfusion h
          | ok p2 =>
            obtain ⟨cond, s2⟩ := p2
            rw [hpop] at h
            dsimp only at h
            have hp := vmPop_ok_facts hpop
            have hl : s2.stack.length + 1 = s1.stack.length := by rw [hp]; rfl
            have hs2 : s2.stack.length ≤ MAX_STACK_DEPTH := by omega
            split at h <;>
              first
              | exact VmRes.noConfusion h
              | exact ihPost rest s2 s' hs2 h
        · rename_i hne
          exact absurd h (hne s')
    · intro instr s s' hInv h
      unfold execOne at h
      cases hop : instr.opcode
      all_goals rw [hop] at h
      case Bind =>
        exact execBind_stackLen hInv (liftE_ok h)
      case Ref =>
        exact execRef_stackLen (liftE_ok h)
      case Drop =>
        exact execDrop_stackLen hInv (liftE_ok h)
      case Const =>
        exact execConst_stackLen (liftE_ok h)
      case ConstExt =>
        exact execConstExt_stackLen (liftE_ok h)
      case Add =>
        exact execBinaryArith_stackLen (liftE_ok h)
      case Sub =>
        exact execBinaryArith_stackLen (liftE_ok h)
      case Mul =>
        exact execBinaryArith_stackLen (liftE_ok h)
      case Div =>
        exact execDiv_stackLen (liftE_ok h)
      case Mod =>
        exact execMod_stackLen (liftE_ok h)
      case Neg =>
        exact execNeg_stackLen (liftE_ok h)
      case Eq =>
        exact execComparison_stackLen (liftE_ok h)
      case Neq =>
        exact execComparison_stackLen (liftE_ok h)
      case Lt =>
        exact execComparison_stackLen (liftE_ok h)
      case Gt =>
        exact execComparison_stackLen (liftE_ok h)
      case Lte =>
        exact execComparison_stackLen (liftE_ok h)
      case Gte =>
        exact execComparison_stackLen (liftE_ok h)
      case And =>
        exact execLogicAnd_stackLen (liftE_ok h)
      case Or =>
        exact execLogicOr_stackLen (liftE_ok h)
      case Not =>
        exact execLogicNot_stackLen (liftE_ok h)
      case Xor =>
        exact execLogicXor_stackLen (liftE_ok h)
      case Shl =>
        exact execShiftLeft_stackLen (liftE_ok h)
      case Shr =>
        exact execShiftRight_stackLen (liftE_ok h)
      case Match =>
        exact execMatch_stackLen hInv (liftE_ok h)
      case Case =>
        have he := VmRes.ok.inj h
        subst he
        exact hInv
      case Exhaust =>
        have he := VmRes.ok.inj h
        subst he
        exact hInv
      case Func =>
        have he := VmRes.ok.inj h
        subst he
        exact hInv
      case Pre =>
        have he := VmRes.ok.inj h
        subst he
        exact hInv
      case Post =>
        have he := VmRes.ok.inj h
        subst he
        exact hInv
      case Ret =>
        exact execRet_stackLen h
      case Call =>
        exact ihCall instr s s' hInv h
      case Recurse =>
        exact ihRecurse instr s s' hInv h
      case EndFunc =>
        have he := VmRes.ok.inj h
        subst he
        exact hInv
      case Param =>
        have he := VmRes.ok.inj h
        subst he
        exact hInv
      case VariantNew =>
        exact execVariantNew_stackLen (liftE_ok h)
      case TupleNew =>
        exact execTupleNew_stackLen (liftE_ok h)
      case Project =>
        exact execProject_stackLen (liftE_ok h)
      case ArrayNew =>
        exact execArrayNew_stackLen (liftE_ok h)
      case ArrayGet =>
        exact execArrayGet_stackLen (liftE_ok h)
      case ArrayLen =>
        exact execArrayLen_stackLen (liftE_ok h)
      case Hash =>
        have he := VmRes.ok.inj h
        subst he
        exact hInv
      case Assert =>
        exact execAssert_stackLen hInv (liftE_ok h)
      case Typeof =>
        exact execTypeof_stackLen (liftE_ok h)
      case Halt =>
        have he := VmRes.ok.inj h
        subst he
        exact hInv
      case Nop =>
        have he := VmRes.ok.inj h
        subst he
        exact hInv

/-- **C8**: the operand stack never holds more than `MAX_STACK_DEPTH = 4096`
values. `VM::push` checks the depth first: on a stack at (or beyond) the
limit it raises `StackOverflow` without pushing, and a successful push
requires the prior depth to be strictly below the limit and yields a stack
within it; consequently every single-instruction step of the interpreter
(`execute_one`, including CALL / RECURSE / RET and their PRE/POST runs)
preserves the depth bound. -/
theorem stack_bounded_by_4096 :
    (∀ (s : VMState) (v : Value), s.stack.length ≥ MAX_STACK_DEPTH →
      vmPush s v = .error (.StackOverflow s.pc)) ∧
    (∀ (s : VMState) (v : Value) (s' : VMState), vmPush s v = .ok s' →
      s.stack.length < MAX_STACK_DEPTH ∧ s'.stack = v :: s.stack ∧
      s'.stack.length ≤ MAX_STACK_DEPTH) ∧
    (∀ (fops : FloatOps) (instrs : List Instruction) (fuel : Nat)
        (instr : Instruction) (s s' : VMState),
      s.stack.length ≤ MAX_STACK_DEPTH →
      execOne fops instrs fuel instr s = .ok s' →
      s'.stack.length ≤ MAX_STACK_DEPTH) := by
  refine ⟨?_, ?_, ?_⟩
  · intro s v hfull
    unfold vmPush
    rw [if_pos hfull]
  · intro s v s' h
    obtain ⟨h1, h2, h3⟩ := vmPush_ok_facts h
    exact ⟨h2, h1, h3⟩
  · intro fops instrs fuel instr s s' hInv h
    exact (vm_stack_inv fops instrs fuel).2.2.2.2.2.2 instr s s' hInv h

/-- Closed instance of `stack_bounded_by_4096`: pushing onto a stack of 4096
units overflows at pc 0, and one CONST step from the fresh state stays within
the bound. -/
theorem stack_bounded_by_4096_witness :
    vmPush { vmNew with stack := List.replicate 4096 Value.Unit } Value.Unit
      = .error (.StackOverflow 0) ∧
    ({ vmNew with stack := [Value.I64 42] } : VMState).stack.length
      ≤ MAX_STACK_DEPTH := by
  constructor
  · have hlen : ({ vmNew with stack := List.replicate 4096 Value.Unit }
        : VMState).stack.length ≥ MAX_STACK_DEPTH := by
      show MAX_STACK_DEPTH ≤ (List.replicate 4096 Value.Unit).length
      rw [List.length_replicate]
      exact Nat.le_refl _
    exact stack_bounded_by_4096.1
      { vmNew with stack := List.replicate 4096 Value.Unit } Value.Unit hlen
  · exact stack_bounded_by_4096.2.2 zeroFloatOps [] 1
      (Instruction.new .Const .I64 0 42 0) vmNew
      { vmNew with stack := [Value.I64 42] } (Nat.zero_le _) rfl

/-- On `pC1` the structural pass reports no error, yet the VM pre-scan
disagrees with it on the function table: the structural pass records
body start 4 and the PRE span `(3, 1)`, the VM records body start 1 (the
PARAM position) and no PRE span, because `scan_functions` has no PARAM arm
in its PRE/POST loop. -/
theorem scan_functions_structural_counterexample :
    (checkStructural pC1).2 = [] ∧
    ((checkStructural pC1).1.functions.map
        (fun f => (f.paramCount, f.bodyStartPc,
          f.preConditions.map (fun b => (b.2.1, b.2.2)),
          f.postConditions.map (fun b => (b.2.1, b.2.2))))
      = [(1, 4, [(3, 1)], [])]) ∧
    ((scanFunctions pC1).map
        (fun f => (f.paramCount, f.bodyStartPc,
          f.preConditions, f.postConditions))
      = [(1, 1, [], [])]) := by
  refine ⟨?_, ?_, ?_⟩
  · simp [checkStructural, checkStructuralGo, collectParams, collectPre,
      collectPost, checkUnusedFields, usedFields, opAt, getI, pC1,
      Instruction.new, caseOrderErrors]
  · simp [checkStructural, checkStructuralGo, collectParams, collectPre,
      collectPost, checkUnusedFields, usedFields, opAt, getI, pC1,
      Instruction.new, caseOrderErrors]
  · simp [scanFunctions, scanFunctionsGo, scanPrePostVM, opAt, getI, pC1,
      Instruction.new]

theorem scanPrePost_post_phase (instrs : List Instruction) (endfunc : Nat)
    (hend : endfunc ≤ instrs.length) :
    ∀ (posts : List (Nat × Nat × Nat)) (scan B : Nat),
      collectPost instrs endfunc scan = (posts, B) →
      ¬(B < instrs.length ∧
        (opAt instrs B = Opcode.Pre ∨ opAt instrs B = Opcode.Post)) →
      scanPrePostVM instrs scan
        = ([], posts.map (fun b => (b.2.1, b.2.2)), B) := by
  intro posts
  induction posts with
  | nil =>
    intro scan B hcol hstop
    unfold collectPost at hcol
    split at hcol
    · dsimp only at hcol
      rcases hq : collectPost instrs endfunc (scan + 1 + (getI instrs scan).arg1)
        with ⟨blocks, fin⟩
      rw [hq] at hcol
      dsimp only at hcol
      injection hcol with h1 h2
      cases h1
    · injection hcol with h1 h2
      subst h2
      unfold scanPrePostVM
      split
      · rename_i hlt
        split
        · rename_i hPre
          exact absurd ⟨hlt, Or.inl hPre⟩ hstop
        · split
          · rename_i hPost
            exact absurd ⟨hlt, Or.inr hPost⟩ hstop
          · rfl
      · rfl
  | cons blk posts' ih =>
    intro scan B hcol hstop
    unfold collectPost at hcol
    split at hcol
    · rename_i hguard
      obtain ⟨hlt, hPost⟩ := hguard
      dsimp only at hcol
      rcases hq : collectPost instrs endfunc (scan + 1 + (getI instrs scan).arg1)
        with ⟨blocks, fin⟩
      rw [hq] at hcol
      dsimp only at hcol
      injection hcol with h1 h2
      injection h1 with h3 h4
      subst h2
      subst h4
      subst h3
      have hltLen : scan < instrs.length := lt_of_lt_of_le hlt hend
      unfold scanPrePostVM
      rw [dif_pos hltLen]
      have hnotPre : ¬ opAt instrs scan = Opcode.Pre := by
        rw [hPost]; intro hc; cases hc
      rw [dif_neg hnotPre, dif_pos hPost]
      dsimp only
      rw [ih (scan + 1 + (getI instrs scan).arg1) fin hq hstop]
      simp
    · injection hcol with h1 h2
      cases h1

theorem scanPrePost_pre_phase (instrs : List Instruction) (endfunc : Nat)
    (hend : endfunc ≤ instrs.length) :
    ∀ (pres : List (Nat × Nat × Nat)) (scan scanMid B : Nat)
      (posts : List (Nat × Nat × Nat)),
      collectPre instrs endfunc scan = (pres, scanMid) →
      collectPost instrs endfunc scanMid = (posts, B) →
      ¬(B < instrs.length ∧
        (opAt instrs B = Opcode.Pre ∨ opAt instrs B = Opcode.Post)) →
      scanPrePostVM instrs scan
        = (pres.map (fun b => (b.2.1, b.2.2)),
           posts.map (fun b => (b.2.1, b.2.2)), B) := by
  intro pres
  induction pres with
  | nil =>
    intro scan scanMid B posts hpre hpost hstop
    unfold collectPre at hpre
    split at hpre
    · dsimp only at hpre
      rcases hq : collectPre instrs endfunc (scan + 1 + (getI instrs scan).arg1)
        with ⟨blocks, fin⟩
      rw [hq] at hpre
      dsimp only at hpre
      injection hpre with h1 h2
      cases h1
    · injection hpre with h1 h2
      subst h2
      exact scanPrePost_post_phase instrs endfunc hend posts scan B hpost hstop
  | cons blk pres' ih =>
    intro scan scanMid B posts hpre hpost hstop
    unfold collectPre at hpre
    split at hpre
    · rename_i hguard
      obtain ⟨hlt, hPre⟩ := hguard
      dsimp only at hpre
      rcases hq : collectPre instrs endfunc (scan + 1 + (getI instrs scan).arg1)
        with ⟨blocks, fin⟩
      rw [hq] at hpre
      dsimp only at hpre
      injection hpre with h1 h2
      injection h1 with h3 h4
      rw [← h2] at hpost
      subst h4
      subst h3
      have hltLen : scan < instrs.length := lt_of_lt_of_le hlt hend
      unfold scanPrePostVM
      rw [dif_pos hltLen, dif_pos hPre]
      dsimp only
      rw [ih (scan + 1 + (getI instrs scan).arg1) fin B posts hq hpost hstop]
      simp
    · injection hpre with h1 h2
      cases h1

/-- **C1** (amended).  First conjunct, the part of the original claim that
is true of the code: for every FUNC block accepted by the structural pass
whose function declares no PARAMs (the param collection is empty, the scan
staying at `func_pc + 1`) and whose structural body start does not hold a
PRE or POST opcode, the VM's PRE/POST scanning loop — the loop
`scan_functions` runs from `func_pc + 1` to build an entry's pre/post spans
and `body_start_pc` — returns exactly the structural pass's PRE spans, POST
spans and `body_start_pc` (`param_count` is read off the same FUNC `arg1`
by both scans).  Second conjunct: the agreement does not extend to the
function tables themselves, because the outer walks differ — the structural
pass jumps a MATCH block to `EXHAUST + 1`, while `scan_functions` walks the
case body linearly and treats any FUNC opcode there as a function, then
skips `1 + body_len + 1` past it: on the structurally accepted `pMatchFunc`
the structural table holds exactly the function at 4 (body start 5) while
the VM table holds exactly a spurious entry with body start 3 built from
the FUNC inside the case body.  (Without the no-PARAM hypothesis even the
first conjunct fails: see the counterexample on `pC1`.) -/
theorem scan_functions_block_scan_agreement :
    (∀ (instrs : List Instruction) (pc endfunc : Nat)
        (pres posts : List (Nat × Nat × Nat)) (scanMid B : Nat),
      endfunc ≤ instrs.length →
      collectParams instrs endfunc (pc + 1) = ([], pc + 1) →
      collectPre instrs endfunc (pc + 1) = (pres, scanMid) →
      collectPost instrs endfunc scanMid = (posts, B) →
      ¬(B < instrs.length ∧
          (opAt instrs B = Opcode.Pre ∨ opAt instrs B = Opcode.Post)) →
      scanPrePostVM instrs (pc + 1)
        = (pres.map (fun b => (b.2.1, b.2.2)),
           posts.map (fun b => (b.2.1, b.2.2)), B)) ∧
    ((checkStructural pMatchFunc).2 = [] ∧
     ((checkStructural pMatchFunc).1.functions.map
        (fun f => (f.funcPc, f.paramCount, f.bodyStartPc)) = [(4, 0, 5)]) ∧
     scanFunctions pMatchFunc
       = [{ paramCount := 0, bodyStartPc := 3,
            preConditions := [], postConditions := [] }]) := by
  constructor
  · intro instrs pc endfunc pres posts scanMid B hend hparams hpre hpost hstop
    exact scanPrePost_pre_phase instrs endfunc hend pres (pc + 1) scanMid B
      posts hpre hpost hstop
  · refine ⟨?_, ?_, ?_⟩
    · simp [checkStructural, checkStructuralGo, collectParams, collectPre,
        collectPost, scanCasesStructural, caseOrderErrors, checkUnusedFields,
        usedFields, opAt, getI, pMatchFunc, Instruction.new]
    · simp [checkStructural, checkStructuralGo, collectParams, collectPre,
        collectPost, scanCasesStructural, caseOrderErrors, checkUnusedFields,
        usedFields, opAt, getI, pMatchFunc, Instruction.new]
    · simp [scanFunctions, scanFunctionsGo, scanPrePostVM, opAt, getI,
        pMatchFunc, Instruction.new]

/-- Closed instance of `scan_functions_block_scan_agreement`: on `pOK` the
VM's span-scanning loop for the parameterless function reproduces the
structural PRE span `(2, 1)`, POST span `(4, 1)` and body start 5. -/
theorem scan_functions_block_scan_agreement_witness :
    scanPrePostVM pOK 1 = ([(2, 1)], [(4, 1)], 5) :=
  scan_functions_block_scan_agreement.1 pOK 0 7
    [(1, 2, 1)] [(3, 4, 1)] 3 5 (by decide)
    (by simp [collectParams, opAt, getI, pOK, Instruction.new])
    (by simp [collectPre, opAt, getI, pOK, Instruction.new])
    (by simp [collectPost, opAt, getI, pOK, Instruction.new])
    (by decide)

end NoLang
